import Mathlib

/-!
# Verification of the kv_pet scraper core (shallow embedding)

This file embeds the merge/reconciliation store (`src/kv_pet/csv_store.py`),
the field normalizers and the HTML listing extractor (`src/kv_pet/parser.py`)
of the kv_pet repository into Lean 4, and proves the specification claims
about them.

Modelling conventions:
* Python `str` values are Lean `String`s (scanning code works on `List Char`).
* Python dict rows are total functions `Col → Option PyVal` over the finite
  universe of the 23 keys that ever occur in a row (`Listing.to_dict` keys);
  `none` means "key absent", `some .vNone` means "key present with value None".
* Python `float` results (`price_per_m2`, `area_m2`) are modelled as exact
  rationals; `round(x, 2)` is modelled as exact round-half-to-even at two
  decimals.
* HTML documents are modelled as the raw character stream together with the
  element data the BeautifulSoup selectors of the source extract from them
  (listing-card containers, overlay/`th`/meta-table texts); the source's
  raw-text offset heuristics run over the raw stream exactly as in the code.
* The ambient timestamp (`datetime.utcnow().isoformat()`) is threaded as an
  explicit `now : String` parameter; ISO-8601 timestamps compare by the
  lexicographic `String` order, as in Python.
-/

namespace KvPet

/-- A Python `float` value, modelled as an exact rational kept in lowest
terms with a positive denominator (all floats the source produces are
terminating decimals, so an exact fraction represents them faithfully).
A computable fraction type is used instead of Mathlib's `ℚ` so that
concrete runs of the embedded code reduce inside `decide`. -/
structure PyFloat where
  n : Int
  d : Nat
  deriving DecidableEq, Repr

/-- Build a normalized `PyFloat` from a numerator and a (positive)
denominator. -/
def mkPyFloat (n : Int) (d : Nat) : PyFloat :=
  if d = 0 then ⟨0, 1⟩
  else
    let g := Nat.gcd n.natAbs d
    if n < 0 then ⟨-((n.natAbs / g : Nat) : Int), d / g⟩
    else ⟨((n.natAbs / g : Nat) : Int), d / g⟩

instance : OfNat PyFloat 0 := ⟨⟨0, 1⟩⟩

instance : LT PyFloat :=
  ⟨fun x y => x.n * (y.d : Int) < y.n * (x.d : Int)⟩

instance (x y : PyFloat) : Decidable (x < y) :=
  inferInstanceAs (Decidable (x.n * (y.d : Int) < y.n * (x.d : Int)))

/-- The rational value of a `PyFloat`. -/
def PyFloat.toRat (x : PyFloat) : ℚ := (x.n : ℚ) / (x.d : ℚ)

/-- Embed an integer. -/
def pfOfInt (n : Int) : PyFloat := ⟨n, 1⟩

/-- Exact division of two floats (the source only divides by values it has
checked to be nonzero). -/
def pfDiv (x y : PyFloat) : PyFloat :=
  mkPyFloat ((if y.n < 0 then -1 else 1) * x.n * (y.d : Int))
    (x.d * y.n.natAbs)

/-- A Python value that can occur in a listing row dict: `None`, a string,
an `int`, or a `float`. -/
inductive PyVal where
  | vNone : PyVal
  | vStr (s : String) : PyVal
  | vInt (n : Int) : PyVal
  | vFloat (f : PyFloat) : PyVal
  deriving DecidableEq, Repr

/-- The 23 keys that occur in listing row dicts: these are exactly the keys
of `Listing.to_dict` in `parser.py`; the CSV schema `CSV_COLUMNS` in
`config.py` is the subset of 20 of them listed in `csvCols` below. -/
inductive Col where
  | id | url | title | deal_type | price | price_per_m2 | area_m2 | rooms
  | floor | total_floors | location | county | city | district
  | property_type | build_year | condition | building_material
  | energy_certificate | first_seen | last_seen | is_active | status
  deriving DecidableEq, Repr

/-- All 23 row keys, in `Listing.to_dict` order. -/
def colList : List Col :=
  [.id, .url, .title, .deal_type, .price, .price_per_m2, .area_m2, .rooms,
   .floor, .total_floors, .location, .county, .city, .district,
   .property_type, .build_year, .condition, .building_material,
   .energy_certificate, .first_seen, .last_seen, .is_active, .status]

/-- `CSV_COLUMNS` from `config.py`: the 20 persisted columns in fixed order. -/
def csvCols : List Col :=
  [.id, .url, .title, .deal_type, .price, .price_per_m2, .area_m2, .rooms,
   .floor, .total_floors, .location, .county, .city, .district,
   .property_type, .build_year, .condition, .first_seen, .last_seen,
   .is_active]

/-- The CSV header name of each column. -/
def colName : Col → String
  | .id => "id" | .url => "url" | .title => "title" | .deal_type => "deal_type"
  | .price => "price" | .price_per_m2 => "price_per_m2"
  | .area_m2 => "area_m2" | .rooms => "rooms" | .floor => "floor"
  | .total_floors => "total_floors" | .location => "location"
  | .county => "county" | .city => "city" | .district => "district"
  | .property_type => "property_type" | .build_year => "build_year"
  | .condition => "condition" | .building_material => "building_material"
  | .energy_certificate => "energy_certificate" | .first_seen => "first_seen"
  | .last_seen => "last_seen" | .is_active => "is_active" | .status => "status"

/-- A row dict: key → value, `none` meaning the key is absent. -/
abbrev Row := Col → Option PyVal

/-- The row dict with no keys. -/
def emptyRow : Row := fun _ => none

/-- Python dict equality restricted to the key universe `colList`
(all dicts handled by the store have keys within it). -/
def rowEqb (r₁ r₂ : Row) : Bool :=
  colList.all fun c => decide (r₁ c = r₂ c)

/-- The in-memory store: the dict returned by `CsvStore.read_all`, keyed by
listing id, in insertion order (Python dicts preserve insertion order). -/
abbrev Store := List (String × Row)

/-- Python dict lookup `d.get(k)` / `k in d` on a store. -/
def storeLookup : Store → String → Option Row
  | [], _ => none
  | (k, v) :: t, k' => if k = k' then some v else storeLookup t k'

/-- Python dict assignment `d[k] = v`: replaces the value in place if the key
exists, otherwise appends the new entry (insertion-order semantics). -/
def storeSet : Store → String → Row → Store
  | [], k, v => [(k, v)]
  | (k', v') :: t, k, v =>
      if k' = k then (k, v) :: t else (k', v') :: storeSet t k v

/-! ## String utilities

Character-level models of the Python string operations the source uses:
`str.lower`, `str.strip`, `str.find`, substring containment (`in`),
`str.replace`, and the handful of fixed regular expressions, each compiled
to an explicit leftmost-match scan. -/

/-- Python `str.lower()` restricted to the characters the source can meet:
ASCII plus the Estonian letters appearing in the bilingual tables. -/
def pyLower (c : Char) : Char :=
  if 'A' ≤ c ∧ c ≤ 'Z' then Char.ofNat (c.toNat + 32)
  else if c = 'Õ' then 'õ'
  else if c = 'Ä' then 'ä'
  else if c = 'Ö' then 'ö'
  else if c = 'Ü' then 'ü'
  else if c = 'Š' then 'š'
  else if c = 'Ž' then 'ž'
  else c

/-- Lowercase a character list. -/
def pyLowerL (l : List Char) : List Char := l.map pyLower

/-- Whitespace for Python's `str.strip` and the regex class `\s`
(ASCII whitespace plus the non-breaking space). -/
def isPySpace (c : Char) : Bool :=
  c = ' ' ∨ c = '\t' ∨ c = '\n' ∨ c = '\r' ∨ c = '\x0b' ∨ c = '\x0c' ∨
    c = '\xa0'

/-- Python `str.strip()`. -/
def pyStrip (l : List Char) : List Char :=
  ((l.dropWhile isPySpace).reverse.dropWhile isPySpace).reverse

/-- Lexicographic comparison of character lists by code point — Python's
`str` order, used by `sorted()` and by comparisons of ISO timestamps. -/
def charListLe : List Char → List Char → Bool
  | [], _ => true
  | _ :: _, [] => false
  | a :: as, b :: bs =>
      if a.toNat < b.toNat then true
      else if b.toNat < a.toNat then false
      else charListLe as bs

/-- Python `a <= b` on strings. -/
def strLe (a b : String) : Bool := charListLe a.toList b.toList

/-- Python string order as a relation (ascending). -/
def strLeProp (a b : String) : Prop := strLe a b = true

instance (a b : String) : Decidable (strLeProp a b) :=
  inferInstanceAs (Decidable (strLe a b = true))

/-- Python `s.startswith(pre)`. -/
def pyStartsWith (s pre : String) : Bool :=
  pre.toList.isPrefixOf s.toList

/-- Python `s.split(sep)` for a one-character separator: splitting the empty
string yields `[""]`, as in Python. -/
def splitOnChar (sep : Char) : List Char → List (List Char)
  | [] => [[]]
  | c :: t =>
      if c = sep then [] :: splitOnChar sep t
      else
        match splitOnChar sep t with
        | h :: rest => (c :: h) :: rest
        | [] => [[c]]

/-- `haystack.find(needle)` scan, carrying the current offset. -/
def findSubFrom (needle : List Char) : List Char → Nat → Option Nat
  | [], i => if needle.isPrefixOf [] then some i else none
  | c :: t, i =>
      if needle.isPrefixOf (c :: t) then some i else findSubFrom needle t (i + 1)

/-- Python `haystack.find(needle)`, as `Option Nat` instead of `-1`. -/
def findSub (haystack needle : List Char) : Option Nat :=
  findSubFrom needle haystack 0

/-- Python `needle in haystack`. -/
def containsSub (haystack needle : List Char) : Bool :=
  (findSub haystack needle).isSome

/-- Python `s.replace(pat, rep)` (left-to-right, non-overlapping); the
source only calls it with a non-empty `pat`. -/
def replaceAllFuel (pat rep : List Char) : Nat → List Char → List Char
  | 0, l => l
  | _ + 1, [] => []
  | fuel + 1, c :: t =>
      if pat ≠ [] ∧ pat.isPrefixOf (c :: t) then
        rep ++ replaceAllFuel pat rep fuel ((c :: t).drop pat.length)
      else c :: replaceAllFuel pat rep fuel t

/-- Python `l.replace(pat, rep)`. -/
def replaceAll (l pat rep : List Char) : List Char :=
  replaceAllFuel pat rep l.length l

/-- Numeric value of a digit character. -/
def digitVal (c : Char) : Nat := c.toNat - '0'.toNat

/-- Python `int(s)` on a digit string. -/
def digitsVal (ds : List Char) : Nat :=
  ds.foldl (fun a c => 10 * a + digitVal c) 0

/-! ## Field normalizers (`parser.py`) -/

/-- `normalize_price` from `parser.py`: keep only digit characters and parse
the run as an integer; empty result is absent. -/
def normalizePrice (s : String) : Option Int :=
  let cleaned := s.toList.filter Char.isDigit
  if cleaned = [] then none else some (digitsVal cleaned)

/-- `normalize_int` from `parser.py`. -/
def normalizeInt (s : String) : Option Int :=
  let cleaned := s.toList.filter Char.isDigit
  if cleaned = [] then none else some (digitsVal cleaned)

/-- Python `float(cs)` restricted to strings of digits and periods, which is
all `normalize_area` can pass it after its final character filter. -/
def parseFloat (cs : List Char) : Option PyFloat :=
  if cs ≠ [] ∧ cs.count '.' ≤ 1 ∧ cs.any Char.isDigit ∧
      cs.all (fun c => c.isDigit ∨ c = '.') then
    let ip := cs.takeWhile Char.isDigit
    let rest := cs.dropWhile Char.isDigit
    let fp := match rest with
      | '.' :: f => f
      | _ => []
    some (mkPyFloat
      ((digitsVal ip * 10 ^ fp.length + digitsVal fp : Nat) : Int)
      (10 ^ fp.length))
  else none

/-- `normalize_area` from `parser.py`: normalize separators, drop area-unit
markers, strip, keep digits and periods, parse as float. -/
def normalizeArea (s : String) : Option PyFloat :=
  let l1 := s.toList.map fun c => if c = '\xa0' then ' ' else c
  let l2 := l1.map fun c => if c = ',' then '.' else c
  let l3 := replaceAll l2 "m²".toList []
  let l4 := replaceAll l3 "m2".toList []
  let l5 := pyStrip l4
  let l6 := l5.filter fun c => c.isDigit ∨ c = '.'
  parseFloat l6

/-- First regex of `extract_listing_id`: leftmost match of `-(\d+)\.html`,
returning the digit group. -/
def findHyphenId : List Char → Option (List Char)
  | [] => none
  | c :: t =>
      if c = '-' then
        let d := t.takeWhile Char.isDigit
        let rest := t.dropWhile Char.isDigit
        if d ≠ [] ∧ ".html".toList.isPrefixOf rest then some d
        else findHyphenId t
      else findHyphenId t

/-- Second regex of `extract_listing_id`: leftmost match of `/(\d+)\.html`. -/
def findSlashId : List Char → Option (List Char)
  | [] => none
  | c :: t =>
      if c = '/' then
        let d := t.takeWhile Char.isDigit
        let rest := t.dropWhile Char.isDigit
        if d ≠ [] ∧ ".html".toList.isPrefixOf rest then some d
        else findSlashId t
      else findSlashId t

/-- Third regex of `extract_listing_id`: leftmost match of `[?&]id=(\d+)`. -/
def findQueryId : List Char → Option (List Char)
  | [] => none
  | c :: t =>
      if c = '?' ∨ c = '&' then
        if "id=".toList.isPrefixOf t then
          let d := (t.drop 3).takeWhile Char.isDigit
          if d ≠ [] then some d else findQueryId t
        else findQueryId t
      else findQueryId t

/-- `extract_listing_id` from `parser.py`: the three patterns tried in fixed
order. -/
def extractListingId (url : String) : Option String :=
  match findHyphenId url.toList with
  | some d => some (String.mk d)
  | none =>
      match findSlashId url.toList with
      | some d => some (String.mk d)
      | none =>
          match findQueryId url.toList with
          | some d => some (String.mk d)
          | none => none

/-! ## Excerpt / meta-table field parsing (`parser.py`, `KvParser`) -/

/-- Match of `\s*(\d+)\s*/\s*(\d+)` anchored at the start of `l`
(the tail of both floor regexes of `_parse_floor`). -/
def parseFracAt (l : List Char) : Option (Int × Int) :=
  let l1 := l.dropWhile isPySpace
  let d1 := l1.takeWhile Char.isDigit
  let l2 := l1.dropWhile Char.isDigit
  if d1 = [] then none
  else
    match l2.dropWhile isPySpace with
    | '/' :: l4 =>
        let d2 := (l4.dropWhile isPySpace).takeWhile Char.isDigit
        if d2 = [] then none else some (digitsVal d1, digitsVal d2)
    | _ => none

/-- Match of the keyword alternative `(?:[Ff]loor|[Kk]orrus)` anchored at the
start of `l`, returning the suffix after the keyword. -/
def floorKeywordAt : List Char → Option (List Char)
  | [] => none
  | c :: t =>
      if (c = 'F' ∨ c = 'f') ∧ "loor".toList.isPrefixOf t then some (t.drop 4)
      else if (c = 'K' ∨ c = 'k') ∧ "orrus".toList.isPrefixOf t then
        some (t.drop 5)
      else none

/-- Leftmost match of `(?:[Ff]loor|[Kk]orrus)\s*(\d+)\s*/\s*(\d+)`. -/
def searchFloorPat : List Char → Option (Int × Int)
  | [] => none
  | c :: t =>
      match floorKeywordAt (c :: t) with
      | some rest =>
          match parseFracAt rest with
          | some p => some p
          | none => searchFloorPat t
      | none => searchFloorPat t

/-- `_parse_floor` from `parser.py`: keyword pattern first, then a bare
`^(\d+)\s*/\s*(\d+)` on the stripped text. -/
def parseFloorStr (s : String) : Option Int × Option Int :=
  if s = "" then (none, none)
  else
    match searchFloorPat s.toList with
    | some (a, b) => (some a, some b)
    | none =>
        match parseFracAt (pyStrip s.toList) with
        | some (a, b) => (some a, some b)
        | none => (none, none)

/-- Leftmost match of `construction year (\d{4})` (IGNORECASE) over an
already lowercased text. -/
def searchYearEn : List Char → Option Int
  | [] => none
  | c :: t =>
      if "construction year ".toList.isPrefixOf (c :: t) then
        let d := ((c :: t).drop 18).takeWhile Char.isDigit
        if 4 ≤ d.length then some (digitsVal (d.take 4)) else searchYearEn t
      else searchYearEn t

/-- Leftmost match of `ehitusaasta\s*(\d{4})` (IGNORECASE) over an already
lowercased text. -/
def searchYearEt : List Char → Option Int
  | [] => none
  | c :: t =>
      if "ehitusaasta".toList.isPrefixOf (c :: t) then
        let d := (((c :: t).drop 11).dropWhile isPySpace).takeWhile Char.isDigit
        if 4 ≤ d.length then some (digitsVal (d.take 4)) else searchYearEt t
      else searchYearEt t

/-- Build-year extraction in `_parse_listing_card`: English pattern first,
Estonian second. -/
def parseBuildYear (excerpt : List Char) : Option Int :=
  match searchYearEn (pyLowerL excerpt) with
  | some y => some y
  | none => searchYearEt (pyLowerL excerpt)

/-- First entry of an ordered phrase table whose search term occurs in the
lowered text (`_parse_excerpt`'s loops). -/
def lookupContains : List (String × String) → List Char → Option String
  | [], _ => none
  | (term, val) :: rest, lowered =>
      if containsSub lowered term.toList then some val
      else lookupContains rest lowered

/-- The `materials` table of `_parse_excerpt`, in source order. -/
def materialsTable : List (String × String) :=
  [("stone house", "stone"), ("kivimaja", "stone"),
   ("panel house", "panel"), ("paneelmaja", "panel"), ("paneel", "panel"),
   ("wooden house", "wood"), ("puitkarkass", "wood"), ("puit", "wood"),
   ("brick house", "brick"), ("tellismaja", "brick"),
   ("log house", "log"), ("palkmaja", "log")]

/-- The `conditions` table of `_parse_excerpt`, in source order. -/
def conditionsTable : List (String × String) :=
  [("all brand-new", "new"), ("brand-new", "new"),
   ("uus,", "new"), (", uus", "new"),
   ("renoveeritud", "renovated"), ("renovated", "renovated"),
   ("good condition", "good"), ("heas seisukorras", "good"),
   ("hea seisukord", "good"),
   ("satisfactory condition", "satisfactory"), ("rahuldav", "satisfactory"),
   ("needs renovation", "needs renovation"),
   ("vajab remonti", "needs renovation")]

/-- `_parse_excerpt` from `parser.py`: ordered containment lookup of
condition and building material in the lowered excerpt text. -/
def parseExcerpt (excerptText : String) : Option String × Option String :=
  if excerptText = "" then (none, none)
  else
    let lowered := pyLowerL excerptText.toList
    (lookupContains conditionsTable lowered,
     lookupContains materialsTable lowered)

/-- `_parse_location` from `parser.py`: split on commas, strip, positions
0/1/2 become county/city/district. -/
def parseLocation (loc : Option String) :
    Option String × Option String × Option String :=
  match loc with
  | none => (none, none, none)
  | some s =>
      if s = "" then (none, none, none)
      else
        let parts := (splitOnChar ',' s.toList).map fun p =>
          String.mk (pyStrip p)
        (parts.get? 0, parts.get? 1, parts.get? 2)

/-- Exact-match association lookup (Python `dict.get` on a literal dict). -/
def lookupExact : List (String × String) → String → Option String
  | [], _ => none
  | (k, v) :: rest, key => if k = key then some v else lookupExact rest key

/-- The `mappings` dict of `_normalize_condition`. -/
def conditionMap : List (String × String) :=
  [("heas korras", "good"), ("hea seisukord", "good"),
   ("heas seisukorras", "good"), ("good condition", "good"),
   ("good", "good"),
   ("uus", "new"), ("new", "new"), ("all brand-new", "new"),
   ("brand-new", "new"),
   ("renoveeritud", "renovated"), ("renovated", "renovated"),
   ("rahuldav", "satisfactory"), ("satisfactory condition", "satisfactory"),
   ("satisfactory", "satisfactory"),
   ("vajab remonti", "needs renovation"),
   ("needs renovation", "needs renovation")]

/-- `_normalize_condition` from `parser.py`. -/
def normalizeConditionStr (c : String) : String :=
  let cl := String.mk (pyStrip (pyLowerL c.toList))
  match lookupExact conditionMap cl with
  | some v => v
  | none => cl

/-- The `mappings` dict of `_normalize_building_material`. -/
def materialMap : List (String × String) :=
  [("kivimaja", "stone"), ("stone house", "stone"), ("stone", "stone"),
   ("paneelmaja", "panel"), ("panel house", "panel"), ("paneel", "panel"),
   ("panel", "panel"),
   ("puitkarkass", "wood"), ("puit", "wood"), ("wooden house", "wood"),
   ("wood", "wood"),
   ("tellismaja", "brick"), ("brick house", "brick"), ("brick", "brick"),
   ("palkmaja", "log"), ("log house", "log"), ("log", "log")]

/-- `_normalize_building_material` from `parser.py`. -/
def normalizeMaterialStr (m : String) : String :=
  let ml := String.mk (pyStrip (pyLowerL m.toList))
  match lookupExact materialMap ml with
  | some v => v
  | none => ml

/-! ## The `Listing` dataclass and `to_dict` -/

/-- The `Listing` dataclass of `parser.py`. Python `float` fields are exact
rationals here. -/
structure Listing where
  id : String
  url : String
  title : String
  deal_type : String
  price : Option Int := none
  price_per_m2 : Option PyFloat := none
  area_m2 : Option PyFloat := none
  rooms : Option Int := none
  floor : Option Int := none
  total_floors : Option Int := none
  location : Option String := none
  county : Option String := none
  city : Option String := none
  district : Option String := none
  property_type : Option String := none
  build_year : Option Int := none
  condition : Option String := none
  building_material : Option String := none
  energy_certificate : Option String := none
  first_seen : Option String := none
  last_seen : Option String := none
  is_active : Bool := true
  status : Option String := none
  deriving DecidableEq, Repr

/-- Embed an optional string field value into a dict value. -/
def embedStr : Option String → PyVal
  | none => .vNone
  | some s => .vStr s

/-- Embed an optional int field value into a dict value. -/
def embedInt : Option Int → PyVal
  | none => .vNone
  | some n => .vInt n

/-- Embed an optional float field value into a dict value. -/
def embedFloat : Option PyFloat → PyVal
  | none => .vNone
  | some f => .vFloat f

/-- `Listing.to_dict` from `parser.py`: the 23-key row dict of a listing;
`is_active` is serialized as the literal string `"true"`/`"false"` here
(`str(self.is_active).lower()`). -/
def toDict (l : Listing) : Row := fun c =>
  match c with
  | .id => some (.vStr l.id)
  | .url => some (.vStr l.url)
  | .title => some (.vStr l.title)
  | .deal_type => some (.vStr l.deal_type)
  | .price => some (embedInt l.price)
  | .price_per_m2 => some (embedFloat l.price_per_m2)
  | .area_m2 => some (embedFloat l.area_m2)
  | .rooms => some (embedInt l.rooms)
  | .floor => some (embedInt l.floor)
  | .total_floors => some (embedInt l.total_floors)
  | .location => some (embedStr l.location)
  | .county => some (embedStr l.county)
  | .city => some (embedStr l.city)
  | .district => some (embedStr l.district)
  | .property_type => some (embedStr l.property_type)
  | .build_year => some (embedInt l.build_year)
  | .condition => some (embedStr l.condition)
  | .building_material => some (embedStr l.building_material)
  | .energy_certificate => some (embedStr l.energy_certificate)
  | .first_seen => some (embedStr l.first_seen)
  | .last_seen => some (embedStr l.last_seen)
  | .is_active => some (.vStr (if l.is_active then "true" else "false"))
  | .status => some (embedStr l.status)

/-! ## Search-results extraction (`KvParser.parse_search_results`) -/

/-- `BASE_URL` from `config.py`. -/
def baseUrl : String := "https://www.kv.ee"

/-- `KvParser.RECOMMENDED_SECTION_MARKERS`, in source order. -/
def recommendedSectionMarkers : List String :=
  ["kuulutused, mis võiksid sulle huvi pakkuda",
   "listings that might interest you",
   "recommended listings",
   "soovitatud kuulutused"]

/-- Position of the first marker phrase (in table order) found in the
lowered document. -/
def findMarkerPos : List String → List Char → Option Nat
  | [], _ => none
  | m :: rest, lowered =>
      match findSub lowered m.toList with
      | some p => some p
      | none => findMarkerPos rest lowered

/-- `KvParser._find_recommended_section_position`. -/
def findRecommendedSectionPosition (html : List Char) : Option Nat :=
  findMarkerPos recommendedSectionMarkers (pyLowerL html)

/-- A child node of the `div.price` element: a bare text node
(`NavigableString`) or a nested element. -/
inductive PriceChild where
  | textNode (s : String)
  | elemNode
  deriving DecidableEq, Repr

/-- The `div.price` element of a listing card: its child nodes and the text
of its nested `small` element, if any. -/
structure PriceDiv where
  children : List PriceChild
  smallText : Option String
  deriving DecidableEq, Repr

/-- The element data `_parse_listing_card` reads off one
`article[data-object-id]` container. Text fields carry what the
corresponding `get_text` call returns; `none` means the sub-element (or
attribute) is absent. -/
structure Container where
  dataObjectId : Option String := none
  dataObjectUrl : Option String := none
  descH2AHref : Option String := none
  titleLinkText : Option String := none
  roomsText : Option String := none
  areaText : Option String := none
  priceDiv : Option PriceDiv := none
  excerptText : Option String := none
  classes : List String := []
  deriving DecidableEq, Repr

/-- Price extraction loop of `_parse_listing_card`: `normalize_price` of the
first text child whose stripped text is non-empty and contains `€`. -/
def firstEuroPrice : List PriceChild → Option Int
  | [] => none
  | .textNode s :: rest =>
      let pt := String.mk (pyStrip s.toList)
      if pt ≠ "" ∧ containsSub pt.toList "€".toList then normalizePrice pt
      else firstEuroPrice rest
  | .elemNode :: rest => firstEuroPrice rest

/-- Round-half-to-even to an integer (Python `round` on an exact value):
the floor, plus one when the remainder is above a half or ties to the odd
floor. -/
def roundHalfEven (x : PyFloat) : Int :=
  let f := x.n.fdiv (x.d : Int)
  let r2 := 2 * (x.n - f * (x.d : Int))
  if r2 < (x.d : Int) then f
  else if (x.d : Int) < r2 then f + 1
  else if Even f then f else f + 1

/-- Python `round(x, 2)` over exact values. -/
def round2 (x : PyFloat) : PyFloat :=
  mkPyFloat (roundHalfEven ⟨x.n * 100, x.d⟩) 100

/-- Property-type extraction of `_parse_listing_card`: first class with the
`object-type-` prefix, prefix removed. -/
def findPropertyType : List String → Option String
  | [] => none
  | cls :: rest =>
      if pyStartsWith cls "object-type-" then
        some (String.mk (replaceAll cls.toList "object-type-".toList []))
      else findPropertyType rest

/-- The main price of a card: the price-extraction loop over the children
of its `div.price`, when that element exists. -/
def cardPrice (c : Container) : Option Int :=
  match c.priceDiv with
  | some pd => firstEuroPrice pd.children
  | none => none

/-- The area of a card: `normalize_area` of the `div.area` text. -/
def cardArea (c : Container) : Option PyFloat :=
  match c.areaText with
  | some s => normalizeArea s
  | none => none

/-- The explicitly-stated price-per-area of a card: `normalize_area` of the
`small` element nested in `div.price`, when both exist. -/
def cardStatedPpm (c : Container) : Option PyFloat :=
  match c.priceDiv with
  | some pd =>
      match pd.smallText with
      | some st => normalizeArea st
      | none => none
  | none => none

/-- `KvParser._parse_listing_card`: parse one search-result container into a
`Listing`; containers without a (truthy) `data-object-id` are dropped. -/
def parseListingCard (dealType now : String) (c : Container) :
    Option Listing :=
  match c.dataObjectId with
  | none => none
  | some lid =>
      if lid = "" then none
      else
        let url0 := match c.dataObjectUrl with
          | some u => u
          | none => ""
        let url1 := if url0 = "" then
            (match c.descH2AHref with
             | some h => h
             | none => "")
          else url0
        let url2 := if url1 ≠ "" ∧ ¬pyStartsWith url1 "http" then
            (if pyStartsWith url1 "/" then baseUrl ++ url1
             else baseUrl ++ "/" ++ url1)
          else url1
        let location := c.titleLinkText
        let title := match c.titleLinkText with
          | some t => t
          | none => ""
        let rooms := match c.roomsText with
          | some s => normalizeInt s
          | none => none
        let area := cardArea c
        let price := cardPrice c
        let ppm := match cardStatedPpm c with
          | some v => some v
          | none =>
              match price, area with
              | some p, some a =>
                  if p ≠ 0 ∧ a ≠ 0 ∧ 0 < a then
                    some (round2 (pfDiv (pfOfInt p) a))
                  else none
              | _, _ => none
        let ft := match c.excerptText with
          | some e => parseFloorStr e
          | none => (none, none)
        let yr := match c.excerptText with
          | some e => parseBuildYear e.toList
          | none => none
        let cm := match c.excerptText with
          | some e => parseExcerpt e
          | none => (none, none)
        let ccd := parseLocation location
        some { id := lid, url := url2, title := title, deal_type := dealType,
               price := price, price_per_m2 := ppm, area_m2 := area,
               rooms := rooms, floor := ft.1, total_floors := ft.2,
               location := location, county := ccd.1, city := ccd.2.1,
               district := ccd.2.2,
               property_type := findPropertyType c.classes,
               build_year := yr, condition := cm.1,
               building_material := cm.2,
               first_seen := some now, last_seen := some now,
               is_active := true }

/-- The raw-text marker `data-object-id="<id>"` whose offset locates a
container in the document. -/
def articleMarker (lid : String) : List Char :=
  ("data-object-id=\x22" ++ lid ++ "\x22").toList

/-- The skip test of `parse_search_results`: a container is skipped when its
marker occurs in the raw document strictly after the recommended-section
heading position (an unfound marker, Python `find` = `-1`, never skips). -/
def excludedByRecommended (html : List Char) (p : Nat) (c : Container) :
    Bool :=
  match c.dataObjectId with
  | some lid =>
      if lid ≠ "" then
        match findSub html (articleMarker lid) with
        | some ap => decide (p < ap)
        | none => false
      else false
  | none => false

/-- `KvParser.parse_search_results`: parse every container, skipping the
ones positioned after the recommended-section heading, if one is found. -/
def parseSearchResults (dealType now : String) (html : List Char)
    (containers : List Container) : List Listing :=
  let rpos := findRecommendedSectionPosition html
  containers.filterMap fun c =>
    match rpos with
    | some p =>
        if excludedByRecommended html p c then none
        else parseListingCard dealType now c
    | none => parseListingCard dealType now c

/-! ## Detail-page extraction (`KvParser.parse_listing_page`) -/

/-- The element data `parse_listing_page` reads off a detail-page document:
the raw character stream plus the texts the BeautifulSoup selectors of the
source extract. `metaRows` are the `(th, td)` stripped texts of rows of
`.meta-table table, table.table-lined` tables that have both cells;
`overlayTexts` are the texts of elements matching
`.object-status, .listing-status, .overlay` in document order (the source's
`select_one` reads the first); `thTexts` are the texts of all `th`
elements. -/
structure DetailPage where
  html : List Char
  metaRows : List (String × String) := []
  overlayTexts : List String := []
  thTexts : List String := []
  h1Text : Option String := none
  objectTitleText : Option String := none
  priceText : Option String := none
  locationText : Option String := none
  deriving DecidableEq, Repr

/-- Python `str.rstrip(":")`. -/
def rstripColon (l : List Char) : List Char :=
  (l.reverse.dropWhile fun c => c = ':').reverse

/-- Dict assignment on a string-keyed association list (later rows
overwrite earlier ones, insertion order kept). -/
def metaSet : List (String × String) → String → String →
    List (String × String)
  | [], k, v => [(k, v)]
  | (k', v') :: t, k, v =>
      if k' = k then (k, v) :: t else (k', v') :: metaSet t k v

/-- `KvParser._extract_meta_table`: lowercased, colon-trimmed header text →
value text, skipping rows with an empty key or value. -/
def buildMeta (rows : List (String × String)) : List (String × String) :=
  rows.foldl
    (fun m kv =>
      let key := String.mk (rstripColon (pyLowerL kv.1.toList))
      let value := kv.2
      if key ≠ "" ∧ value ≠ "" then metaSet m key value else m)
    []

/-- Python `a or b` over optional strings (an empty string is falsy). -/
def pyOrStr (a b : Option String) : Option String :=
  match a with
  | some s => if s = "" then b else some s
  | none => b

/-- `KvParser._detect_reserved_status`: a parenthesized marker anywhere in
the lowered document, or — when the bare word occurs in the document — the
bare word in the first status/overlay element or in any `th` cell. -/
def detectReserved (page : DetailPage) : Bool :=
  let lowered := pyLowerL page.html
  if containsSub lowered "(broneeritud)".toList ∨
      containsSub lowered "(reserved)".toList then true
  else if containsSub lowered "broneeritud".toList then
    (match page.overlayTexts.head? with
     | some o => containsSub (pyLowerL o.toList) "broneeritud".toList
     | none => false) ||
    page.thTexts.any fun th =>
      containsSub (pyLowerL th.toList) "broneeritud".toList
  else false

/-- `KvParser.parse_listing_page`: parse a detail page into a `Listing`
via the meta-table lookup, with reserved-status detection driving
`is_active` and `status`. -/
def parseListingPage (dealType now : String) (page : DetailPage)
    (listingId : String) : Option Listing :=
  let meta := buildMeta page.metaRows
  let isReserved := detectReserved page
  let condition0 := pyOrStr (lookupExact meta "seisukord")
    (lookupExact meta "condition")
  let condition := match condition0 with
    | some c => if c ≠ "" then some (normalizeConditionStr c) else some c
    | none => none
  let energy0 := pyOrStr (lookupExact meta "energiamärgis")
    (lookupExact meta "energy certificate")
  let energy := match energy0 with
    | some e => if e ≠ "" then some (String.mk (pyStrip e.toList)) else some e
    | none => none
  let roomsStr := pyOrStr (lookupExact meta "tube") (lookupExact meta "rooms")
  let rooms := match roomsStr with
    | some s => if s ≠ "" then normalizeInt s else none
    | none => none
  let areaStr := pyOrStr (lookupExact meta "üldpind")
    (lookupExact meta "total area")
  let area := match areaStr with
    | some s => if s ≠ "" then normalizeArea s else none
    | none => none
  let floorStr := pyOrStr (pyOrStr (lookupExact meta "korrus/korruseid")
    (lookupExact meta "floor/floors")) (lookupExact meta "korrus")
  let ft := match floorStr with
    | some s => if s ≠ "" then parseFloorStr s else (none, none)
    | none => (none, none)
  let yearStr := pyOrStr (pyOrStr (lookupExact meta "ehitusaasta")
    (lookupExact meta "construction year")) (lookupExact meta "year built")
  let buildYear := match yearStr with
    | some s => if s ≠ "" then normalizeInt s else none
    | none => none
  let material0 := pyOrStr (lookupExact meta "ehitusmaterjal")
    (lookupExact meta "building material")
  let material := match material0 with
    | some m => if m ≠ "" then some (normalizeMaterialStr m) else some m
    | none => none
  let title := match page.h1Text with
    | some t => t
    | none =>
        match page.objectTitleText with
        | some t => t
        | none => ""
  let price := match page.priceText with
    | some t => normalizePrice t
    | none => none
  let ppm : Option PyFloat := match price, area with
    | some p, some a =>
        if p ≠ 0 ∧ a ≠ 0 ∧ 0 < a then some (round2 (pfDiv (pfOfInt p) a))
        else none
    | _, _ => none
  let location := page.locationText
  let ccd := parseLocation location
  let url := baseUrl ++ "/" ++ listingId ++ ".html"
  let status := if isReserved then "reserved" else "active"
  some { id := listingId, url := url, title := title, deal_type := dealType,
         price := price, price_per_m2 := ppm, area_m2 := area,
         rooms := rooms, floor := ft.1, total_floors := ft.2,
         location := location, county := ccd.1, city := ccd.2.1,
         district := ccd.2.2, build_year := buildYear,
         condition := condition, building_material := material,
         energy_certificate := energy, first_seen := some now,
         last_seen := some now, is_active := !isReserved,
         status := some status }

/-! ## The CSV store (`csv_store.py`) -/

/-- The presence test of `_merge_row`:
`new_value is not None and new_value != "" and new_value != "None"`. -/
def presentValB (v : PyVal) : Bool :=
  v ≠ PyVal.vNone ∧ v ≠ PyVal.vStr "" ∧ v ≠ PyVal.vStr "None"

/-- `CsvStore._merge_row`: copy the old row, then per key of the new row:
`first_seen` is skipped, `last_seen` is set to `now`, any other key
overwrites only when its new value is present. -/
def mergeRow (old new : Row) (now : String) : Row := fun c =>
  match new c with
  | none => old c
  | some v =>
      if c = Col.first_seen then old c
      else if c = Col.last_seen then some (.vStr now)
      else if presentValB v then some v else old c

/-- The row inserted for a new id: `to_dict` with
`first_seen = last_seen = now`. -/
def addedRow (l : Listing) (now : String) : Row := fun c =>
  if c = Col.first_seen ∨ c = Col.last_seen then some (.vStr now)
  else toDict l c

/-- One iteration of the merge loop of `merge_listings`, threading the
`(added, updated, unchanged)` counters and the store. -/
def mergeStep (now : String) (acc : (Nat × Nat × Nat) × Store)
    (l : Listing) : (Nat × Nat × Nat) × Store :=
  let counts := acc.1
  let s := acc.2
  match storeLookup s l.id with
  | some old =>
      let merged := mergeRow old (toDict l) now
      if rowEqb merged old then ((counts.1, counts.2.1, counts.2.2 + 1), s)
      else ((counts.1, counts.2.1 + 1, counts.2.2), storeSet s l.id merged)
  | none =>
      ((counts.1 + 1, counts.2.1, counts.2.2), storeSet s l.id (addedRow l now))

/-- The update the `mark_missing_inactive` pass applies to one record:
flip to inactive with `last_seen = now` when the id was not in this batch
and the record is active, leave it alone otherwise. -/
def markRow (seen : List String) (now : String) (k : String) (r : Row) :
    Row :=
  if k ∉ seen ∧ r Col.is_active = some (.vStr "true") then
    fun c =>
      if c = Col.is_active then some (.vStr "false")
      else if c = Col.last_seen then some (.vStr now)
      else r c
  else r

/-- The `mark_missing_inactive` pass of `merge_listings`: every record whose
id is not in this batch and whose `is_active` is `"true"` is flipped
inactive with `last_seen = now`. -/
def markMissing (s : Store) (seen : List String) (now : String) : Store :=
  s.map fun p => (p.1, markRow seen now p.1 p.2)

/-- `CsvStore.merge_listings` on an in-memory store (the store parameter is
what `read_all` returned; persisting is `writeAll` below): returns the
`(added, updated, unchanged)` counts and the updated store. -/
def mergeListings (existing : Store) (newListings : List Listing)
    (now : String) (markMissingInactive : Bool) :
    (Nat × Nat × Nat) × Store :=
  let res := newListings.foldl (mergeStep now) (((0, 0, 0) : Nat × Nat × Nat), existing)
  let seen := newListings.map Listing.id
  let store := if markMissingInactive then markMissing res.2 seen now
    else res.2
  (res.1, store)

/-- Decimal rendering of the natural number `m` with a decimal point before
its last `k` digits (zero-padded when `m` is short). -/
def decimalRepr (m : Nat) (k : Nat) : String :=
  let ds := toString m
  let ds := if ds.length < k + 1 then
      String.mk (List.replicate (k + 1 - ds.length) '0') ++ ds
    else ds
  (ds.toList.take (ds.length - k) ++ '.' :: ds.toList.drop (ds.length - k))
    |> String.mk

/-- Python `str(float)` for the terminating decimals the source produces
(`normalize_area` outputs and `round(·, 2)` outputs); integral floats print
with a trailing `.0` as in Python. -/
def pfRepr (f : PyFloat) : String :=
  let sign := if f.n < 0 then "-" else ""
  let na := f.n.natAbs
  if f.d = 1 then sign ++ toString na ++ ".0"
  else
    match (List.range 18).find? fun k => na * 10 ^ k % f.d = 0 with
    | some k => sign ++ decimalRepr (na * 10 ^ k / f.d) k
    | none => sign ++ toString na ++ "/" ++ toString f.d

/-- CSV cell serialization: an absent key serializes as `""` (the
`DictWriter` `restval`), a `None` value as `""` (the `cleaned` dict in
`_write_all`), and other values as their Python string form. -/
def cellStr : Option PyVal → String
  | none => ""
  | some .vNone => ""
  | some (.vStr s) => s
  | some (.vInt n) => toString n
  | some (.vFloat f) => pfRepr f

/-- `sorted(listings.keys())`: the store's keys in ascending string order. -/
def sortKeys (s : Store) : List String :=
  List.insertionSort strLeProp (s.map Prod.fst)

/-- `listings[listing_id]` (total; every sorted key is present). -/
def getRow (s : Store) (k : String) : Row :=
  (storeLookup s k).getD emptyRow

/-- `CsvStore._write_all` generalized over the column list: the header row
followed by one serialized row per key in ascending order. -/
def writeAllCols (cols : List Col) (s : Store) : List (List String) :=
  (cols.map colName) ::
    (sortKeys s).map fun k => cols.map fun c => cellStr (getRow s k c)

/-- `CsvStore._write_all` with the `CSV_COLUMNS` schema. -/
def writeAll (s : Store) : List (List String) :=
  writeAllCols csvCols s

/-- One CSV round-trip of a row: `_write_all` then `read_all` turns every
persisted column into its serialized string and drops the rest. -/
def roundTripRow (r : Row) : Row := fun c =>
  if c ∈ csvCols then some (.vStr (cellStr (r c))) else none

/-- `read_all` after `_write_all`: rows keyed by their serialized id cell,
in file (= sorted) order, rows with an empty id skipped. -/
def roundTrip (s : Store) : Store :=
  (sortKeys s).filterMap fun k =>
    let r := getRow s k
    let lid := cellStr (r Col.id)
    if lid = "" then none else some (lid, roundTripRow r)

/-- A sequence of persisted `merge_listings` calls starting from a given
on-disk state: each call reads the store, merges a batch at its timestamp,
and writes back. -/
def runTrace : Store → List (List Listing × String × Bool) → Store
  | s, [] => s
  | s, (b, n, m) :: rest => runTrace (roundTrip (mergeListings s b n m).2) rest

/-- The batch timestamps of a trace are non-decreasing, starting at or
after `t` (in the Python string order ISO timestamps sort by). -/
def nowsNondec : String → List (List Listing × String × Bool) → Prop
  | _, [] => True
  | t, (_, n, _) :: rest => strLeProp t n ∧ nowsNondec n rest

/-! ## Concrete inputs used by the witnesses and counterexamples -/

/-- A seeded store record: listing `"12345"` first seen at `"T1"`. -/
def c3OldRow : Row := toDict
  { id := "12345", url := "https://www.kv.ee/12345.html",
    title := "Test apartment", deal_type := "sale", price := some 100000,
    location := some "Tallinn", first_seen := some "T1",
    last_seen := some "T1" }

/-- An update of the same listing with some fields absent. -/
def c3NewRow : Row := toDict
  { id := "12345", url := "https://www.kv.ee/12345.html",
    title := "Updated apartment", deal_type := "sale",
    price := some 110000 }

/-- A store of three seeded records with unsorted keys. -/
def c8Store : Store :=
  [("3", toDict { id := "3", url := "u3", title := "Apt 3",
                  deal_type := "rent", first_seen := some "T1",
                  last_seen := some "T1" }),
   ("1", toDict { id := "1", url := "u1", title := "Apt 1",
                  deal_type := "sale", first_seen := some "T1",
                  last_seen := some "T1" })]

/-! ## Theorems -/

theorem mem_colList (c : Col) : c ∈ colList := by cases c <;> decide

theorem rowEqb_iff {r₁ r₂ : Row} : rowEqb r₁ r₂ = true ↔ r₁ = r₂ := by
  constructor
  · intro h
    funext c
    exact of_decide_eq_true (List.all_eq_true.mp h c (mem_colList c))
  · rintro rfl
    exact List.all_eq_true.mpr fun c _ => decide_eq_true rfl

@[simp] theorem storeLookup_nil (k : String) : storeLookup [] k = none := rfl

theorem storeLookup_set_self (s : Store) (k : String) (v : Row) :
    storeLookup (storeSet s k v) k = some v := by
  induction s with
  | nil => simp [storeSet, storeLookup]
  | cons p t ih =>
      obtain ⟨k', v'⟩ := p
      by_cases h : k' = k
      · simp [storeSet, storeLookup, h]
      · simp [storeSet, storeLookup, h, ih]

theorem storeLookup_set_ne (s : Store) (k k' : String) (v : Row)
    (h : k' ≠ k) : storeLookup (storeSet s k v) k' = storeLookup s k' := by
  have hk : ¬(k = k') := fun hkk => h hkk.symm
  induction s with
  | nil => simp [storeSet, storeLookup, hk]
  | cons p t ih =>
      obtain ⟨k₀, v₀⟩ := p
      by_cases h0 : k₀ = k
      · subst h0
        simp [storeSet, storeLookup, hk]
      · simp [storeSet, storeLookup, h0, ih]

theorem storeSet_of_lookup_none (s : Store) (k : String) (v : Row)
    (h : storeLookup s k = none) : storeSet s k v = s ++ [(k, v)] := by
  induction s with
  | nil => rfl
  | cons p t ih =>
      obtain ⟨k₀, v₀⟩ := p
      by_cases h0 : k₀ = k
      · simp [storeLookup, h0] at h
      · simp [storeLookup, h0] at h
        simp [storeSet, h0, ih h]

theorem keys_storeSet_of_mem (s : Store) (k : String) (v : Row)
    (h : storeLookup s k = some _r) :
    (storeSet s k v).map Prod.fst = s.map Prod.fst := by
  induction s with
  | nil => simp [storeLookup] at h
  | cons p t ih =>
      obtain ⟨k₀, v₀⟩ := p
      by_cases h0 : k₀ = k
      · simp [storeSet, h0]
      · simp [storeLookup, h0] at h
        simp [storeSet, h0, ih h]

theorem mem_storeSet (s : Store) (k : String) (v : Row) (p : String × Row)
    (h : p ∈ storeSet s k v) : p ∈ s ∨ p = (k, v) := by
  induction s with
  | nil => simpa [storeSet] using h
  | cons q t ih =>
      obtain ⟨k₀, v₀⟩ := q
      by_cases h0 : k₀ = k
      · simp only [storeSet, h0, if_pos rfl] at h
        rcases List.mem_cons.mp h with h | h
        · exact Or.inr h
        · exact Or.inl (List.mem_cons_of_mem _ h)
      · simp only [storeSet, if_neg h0] at h
        rcases List.mem_cons.mp h with h | h
        · exact Or.inl (h ▸ List.mem_cons_self _ _)
        · rcases ih h with h | h
          · exact Or.inl (List.mem_cons_of_mem _ h)
          · exact Or.inr h

theorem storeLookup_mem (s : Store) (k : String) (r : Row)
    (h : storeLookup s k = some r) : (k, r) ∈ s := by
  induction s with
  | nil => simp [storeLookup] at h
  | cons p t ih =>
      obtain ⟨k₀, v₀⟩ := p
      by_cases h0 : k₀ = k
      · subst h0
        simp [storeLookup] at h
        simp [h]
      · simp [storeLookup, h0] at h
        exact List.mem_cons_of_mem _ (ih h)

theorem storeLookup_map_value (s : Store) (g : String → Row → Row)
    (k : String) :
    storeLookup (s.map fun p => (p.1, g p.1 p.2)) k =
      (storeLookup s k).map (g k) := by
  induction s with
  | nil => rfl
  | cons p t ih =>
      obtain ⟨k₀, v₀⟩ := p
      by_cases h0 : k₀ = k
      · subst h0
        simp [storeLookup]
      · simp [storeLookup, h0, ih]

theorem storeLookup_isSome_set (s : Store) (k k' : String) (v : Row)
    (h : (storeLookup s k').isSome) :
    (storeLookup (storeSet s k v) k').isSome := by
  by_cases hk : k' = k
  · subst hk
    simp [storeLookup_set_self]
  · rwa [storeLookup_set_ne _ _ _ _ hk]

theorem charListLe_refl (a : List Char) : charListLe a a = true := by
  induction a with
  | nil => rfl
  | cons c t ih => simp [charListLe, ih]

theorem charListLe_total (a b : List Char) :
    charListLe a b = true ∨ charListLe b a = true := by
  induction a generalizing b with
  | nil => exact Or.inl rfl
  | cons c t ih =>
      cases b with
      | nil => exact Or.inr rfl
      | cons d s =>
          by_cases h1 : c.toNat < d.toNat
          · exact Or.inl (by simp [charListLe, h1])
          · by_cases h2 : d.toNat < c.toNat
            · exact Or.inr (by simp [charListLe, h1, h2])
            · rcases ih s with h | h
              · exact Or.inl (by simp [charListLe, h1, h2, h])
              · exact Or.inr (by simp [charListLe, h1, h2, h])

theorem charListLe_trans (a b c : List Char) (hab : charListLe a b = true)
    (hbc : charListLe b c = true) : charListLe a c = true := by
  induction a generalizing b c with
  | nil => rfl
  | cons x xs ih =>
      cases b with
      | nil => simp [charListLe] at hab
      | cons y ys =>
          cases c with
          | nil => simp [charListLe] at hbc
          | cons z zs =>
              by_cases h1 : x.toNat < y.toNat <;>
                by_cases h2 : y.toNat < z.toNat
              · simp [charListLe, Nat.lt_trans h1 h2]
              · simp only [charListLe, h1, if_pos, h2] at hbc ⊢
                by_cases h3 : z.toNat < y.toNat
                · simp [h3] at hbc
                · have : y.toNat = z.toNat := Nat.le_antisymm
                    (Nat.le_of_not_lt h3) (Nat.le_of_not_lt h2)
                  simp [this ▸ h1]
              · simp only [charListLe, h1, if_neg] at hab ⊢
                by_cases h1' : y.toNat < x.toNat
                · simp [h1'] at hab
                · have hxy : x.toNat = y.toNat := Nat.le_antisymm
                    (Nat.le_of_not_lt h1') (Nat.le_of_not_lt h1)
                  simp [hxy ▸ h2]
              · simp only [charListLe, h1, h2, if_neg] at hab hbc
                by_cases h1' : y.toNat < x.toNat
                · simp [h1'] at hab
                · by_cases h2' : z.toNat < y.toNat
                  · simp [h2'] at hbc
                  · have hxy : x.toNat = y.toNat := Nat.le_antisymm
                      (Nat.le_of_not_lt h1') (Nat.le_of_not_lt h1)
                    have hyz : y.toNat = z.toNat := Nat.le_antisymm
                      (Nat.le_of_not_lt h2') (Nat.le_of_not_lt h2)
                    simp only [h1'] at hab
                    simp only [h2'] at hbc
                    have hxz : ¬x.toNat < z.toNat := by
                      rw [hxy, hyz]
                      exact Nat.lt_irrefl _
                    have hzx : ¬z.toNat < x.toNat := by
                      rw [hxy, hyz]
                      exact Nat.lt_irrefl _
                    simp only [charListLe, hxz, hzx, if_neg, if_false]
                    exact ih ys zs (by simpa using hab) (by simpa using hbc)

theorem charListLe_antisymm (a b : List Char) (hab : charListLe a b = true)
    (hba : charListLe b a = true) : a = b := by
  induction a generalizing b with
  | nil =>
      cases b with
      | nil => rfl
      | cons d s => simp [charListLe] at hba
  | cons x xs ih =>
      cases b with
      | nil => simp [charListLe] at hab
      | cons y ys =>
          by_cases h1 : x.toNat < y.toNat
          · simp [charListLe, Nat.lt_asymm h1, h1] at hba
          · by_cases h2 : y.toNat < x.toNat
            · simp [charListLe, h1, h2] at hab
            · have hxy : x = y := by
                have hn : x.toNat = y.toNat := Nat.le_antisymm
                  (Nat.le_of_not_lt h2) (Nat.le_of_not_lt h1)
                exact Char.eq_of_val_eq (UInt32.eq_of_toBitVec_eq
                  (BitVec.eq_of_toNat_eq hn))
              subst hxy
              have hxs := ih ys (by simpa [charListLe, h1, h2] using hab)
                (by simpa [charListLe, h1, h2] using hba)
              rw [hxs]

instance : IsTotal String strLeProp :=
  ⟨fun a b => charListLe_total a.toList b.toList⟩

instance : IsTrans String strLeProp :=
  ⟨fun a b c => charListLe_trans a.toList b.toList c.toList⟩

theorem strLe_antisymm (a b : String) (hab : strLeProp a b)
    (hba : strLeProp b a) : a = b := by
  have h := charListLe_antisymm a.toList b.toList hab hba
  cases a
  cases b
  exact congrArg String.mk h

instance : IsAntisymm String strLeProp := ⟨strLe_antisymm⟩

theorem findSubFrom_isSome_iff (needle h : List Char) (i : Nat) :
    (findSubFrom needle h i).isSome = true ↔ needle <:+: h := by
  induction h generalizing i with
  | nil =>
      by_cases hp : needle <+: ([] : List Char)
      · have hb : needle.isPrefixOf ([] : List Char) = true :=
          List.isPrefixOf_iff_prefix.mpr hp
        simp [findSubFrom, hb, hp.isInfix]
      · have hb : needle.isPrefixOf ([] : List Char) = false := by
          rw [Bool.eq_false_iff]
          intro hc
          exact hp (List.isPrefixOf_iff_prefix.mp hc)
        have hni : ¬needle <:+: ([] : List Char) := by
          intro hc
          exact hp (List.eq_nil_of_infix_nil hc ▸ List.prefix_refl _)
        simp [findSubFrom, hb, hni]
  | cons c t ih =>
      by_cases hp : needle <+: (c :: t)
      · have hb : needle.isPrefixOf (c :: t) = true :=
          List.isPrefixOf_iff_prefix.mpr hp
        simp [findSubFrom, hb, hp.isInfix]
      · have hb : needle.isPrefixOf (c :: t) = false := by
          rw [Bool.eq_false_iff]
          intro hc
          exact hp (List.isPrefixOf_iff_prefix.mp hc)
        simp only [findSubFrom, hb, Bool.false_eq_true, if_false, ih]
        rw [List.infix_cons_iff]
        simp [hp]

/-- **C3** (confirmed). For every existing record and incoming row, merging
overwrites a field other than `first_seen`/`last_seen` exactly when the
incoming value is present (not `None`, not `""`, not the `"None"` marker);
an absent or non-present incoming value leaves the stored value unchanged,
so absent new values never erase existing data (`CsvStore._merge_row`). -/
theorem merge_overwrites_only_present_fields (old new : Row) (now : String)
    (c : Col) (hf : c ≠ Col.first_seen) (hl : c ≠ Col.last_seen) :
    (∀ v, new c = some v → presentValB v = true →
      mergeRow old new now c = some v) ∧
    (∀ v, new c = some v → presentValB v = false →
      mergeRow old new now c = old c) ∧
    (new c = none → mergeRow old new now c = old c) := by
  refine ⟨?_, ?_, ?_⟩
  · intro v hv hp
    simp [mergeRow, hv, hf, hl, hp]
  · intro v hv hp
    simp [mergeRow, hv, hf, hl, hp]
  · intro hv
    simp [mergeRow, hv]

/-- Witness for C3: merging the concrete rows overwrites the present new
title and keeps the stored location, which the new row lacks. -/
theorem merge_overwrites_only_present_fields_witness :
    mergeRow c3OldRow c3NewRow "T2" Col.title =
      some (.vStr "Updated apartment") ∧
    mergeRow c3OldRow c3NewRow "T2" Col.location = c3OldRow Col.location := by
  constructor
  · exact (merge_overwrites_only_present_fields c3OldRow c3NewRow "T2"
      Col.title (by decide) (by decide)).1 (.vStr "Updated apartment")
      rfl (by decide)
  · exact (merge_overwrites_only_present_fields c3OldRow c3NewRow "T2"
      Col.location (by decide) (by decide)).2.1 .vNone rfl (by decide)

theorem findHyphenId_digits (u d : List Char) (h : findHyphenId u = some d) :
    d ≠ [] ∧ d.all Char.isDigit = true := by
  induction u with
  | nil => simp [findHyphenId] at h
  | cons c t ih =>
      by_cases hc : c = '-'
      · rw [findHyphenId, if_pos hc] at h
        by_cases hg : t.takeWhile Char.isDigit ≠ [] ∧
            ".html".toList.isPrefixOf (t.dropWhile Char.isDigit)
        · rw [if_pos hg] at h
          cases h
          refine ⟨hg.1, ?_⟩
          exact List.all_eq_true.mpr fun x hx => List.mem_takeWhile_imp hx
        · rw [if_neg hg] at h
          exact ih h
      · rw [findHyphenId, if_neg hc] at h
        exact ih h

theorem findSlashId_digits (u d : List Char) (h : findSlashId u = some d) :
    d ≠ [] ∧ d.all Char.isDigit = true := by
  induction u with
  | nil => simp [findSlashId] at h
  | cons c t ih =>
      by_cases hc : c = '/'
      · rw [findSlashId, if_pos hc] at h
        by_cases hg : t.takeWhile Char.isDigit ≠ [] ∧
            ".html".toList.isPrefixOf (t.dropWhile Char.isDigit)
        · rw [if_pos hg] at h
          cases h
          refine ⟨hg.1, ?_⟩
          exact List.all_eq_true.mpr fun x hx => List.mem_takeWhile_imp hx
        · rw [if_neg hg] at h
          exact ih h
      · rw [findSlashId, if_neg hc] at h
        exact ih h

theorem findQueryId_digits (u d : List Char) (h : findQueryId u = some d) :
    d ≠ [] ∧ d.all Char.isDigit = true := by
  induction u with
  | nil => simp [findQueryId] at h
  | cons c t ih =>
      by_cases hc : c = '?' ∨ c = '&'
      · rw [findQueryId, if_pos hc] at h
        by_cases hi : "id=".toList.isPrefixOf t
        · rw [if_pos hi] at h
          by_cases hg : (t.drop 3).takeWhile Char.isDigit ≠ []
          · rw [if_pos hg] at h
            cases h
            refine ⟨hg, ?_⟩
            exact List.all_eq_true.mpr fun x hx => List.mem_takeWhile_imp hx
          · rw [if_neg hg] at h
            exact ih h
        · rw [if_neg hi] at h
          exact ih h
      · rw [findQueryId, if_neg hc] at h
        exact ih h

/-- **C7** (confirmed). `extract_listing_id` tries its three patterns in
fixed order — hyphen-digit-suffix before `.html`, then bare numeric path
segment before `.html`, then `id=` query parameter — returning the digit
run of the first that matches and `none` otherwise; every returned id is a
non-empty digit run, and the spec's three examples evaluate as stated. -/
theorem extract_listing_id_pattern_order :
    (∀ u d, findHyphenId u.toList = some d →
      extractListingId u = some (String.mk d)) ∧
    (∀ u d, findHyphenId u.toList = none → findSlashId u.toList = some d →
      extractListingId u = some (String.mk d)) ∧
    (∀ u d, findHyphenId u.toList = none → findSlashId u.toList = none →
      findQueryId u.toList = some d →
      extractListingId u = some (String.mk d)) ∧
    (∀ u, findHyphenId u.toList = none → findSlashId u.toList = none →
      findQueryId u.toList = none → extractListingId u = none) ∧
    (∀ u d, extractListingId u = some d →
      d.toList ≠ [] ∧ d.toList.all Char.isDigit = true) ∧
    extractListingId "/en/title-words-3447874.html" = some "3447874" ∧
    extractListingId "https://site/?id=12345" = some "12345" ∧
    extractListingId "https://site/search" = none := by
  refine ⟨?_, ?_, ?_, ?_, ?_, by decide, by decide, by decide⟩
  · intro u d h1
    have h1' : findHyphenId u.data = some d := h1
    simp [extractListingId, h1']
  · intro u d h1 h2
    have h1' : findHyphenId u.data = none := h1
    have h2' : findSlashId u.data = some d := h2
    simp [extractListingId, h1', h2']
  · intro u d h1 h2 h3
    have h1' : findHyphenId u.data = none := h1
    have h2' : findSlashId u.data = none := h2
    have h3' : findQueryId u.data = some d := h3
    simp [extractListingId, h1', h2', h3']
  · intro u h1 h2 h3
    have h1' : findHyphenId u.data = none := h1
    have h2' : findSlashId u.data = none := h2
    have h3' : findQueryId u.data = none := h3
    simp [extractListingId, h1', h2', h3']
  · intro u d h
    unfold extractListingId at h
    cases h1 : findHyphenId u.toList with
    | some d1 =>
        rw [h1] at h
        cases h
        exact findHyphenId_digits _ _ h1
    | none =>
        rw [h1] at h
        cases h2 : findSlashId u.toList with
        | some d2 =>
            rw [h2] at h
            cases h
            exact findSlashId_digits _ _ h2
        | none =>
            rw [h2] at h
            cases h3 : findQueryId u.toList with
            | some d3 =>
                rw [h3] at h
                cases h
                exact findQueryId_digits _ _ h3
            | none =>
                rw [h3] at h
                cases h

/-- Witness for C7: the fallback order applied at concrete inputs. -/
theorem extract_listing_id_pattern_order_witness :
    extractListingId "https://site/?id=777" = some (String.mk "777".toList) :=
  extract_listing_id_pattern_order.2.2.1 "https://site/?id=777"
    "777".toList (by decide) (by decide) (by decide)

/-- **C8** (confirmed). `_write_all` persists a header row of the 20
`CSV_COLUMNS` names in their fixed order, then — when the store's keys are
distinct, as `read_all` guarantees — exactly one row per listing id, in
ascending id order; an absent key and a `None` value both serialize as
`""`, and `to_dict` serializes `is_active` as the literal `"true"` or
`"false"`. -/
theorem persisted_table_shape (s : Store) (h : (s.map Prod.fst).Nodup) :
    writeAll s = (csvCols.map colName) ::
      ((sortKeys s).map fun k => csvCols.map fun c => cellStr (getRow s k c)) ∧
    csvCols.map colName =
      ["id", "url", "title", "deal_type", "price", "price_per_m2", "area_m2",
       "rooms", "floor", "total_floors", "location", "county", "city",
       "district", "property_type", "build_year", "condition", "first_seen",
       "last_seen", "is_active"] ∧
    List.Sorted strLeProp (sortKeys s) ∧
    (sortKeys s).Nodup ∧
    List.Perm (sortKeys s) (s.map Prod.fst) ∧
    cellStr none = "" ∧ cellStr (some .vNone) = "" ∧
    (∀ l : Listing, toDict l Col.is_active =
      some (.vStr (if l.is_active then "true" else "false"))) := by
  refine ⟨rfl, by decide, ?_, ?_, ?_, rfl, rfl, fun l => rfl⟩
  · exact List.sorted_insertionSort strLeProp (s.map Prod.fst)
  · exact (List.perm_insertionSort strLeProp (s.map Prod.fst)).nodup_iff.mpr h
  · exact List.perm_insertionSort strLeProp (s.map Prod.fst)

/-- Witness for C8: the concrete two-record store is persisted sorted. -/
theorem persisted_table_shape_witness :
    List.Sorted strLeProp (sortKeys c8Store) ∧ (sortKeys c8Store).Nodup :=
  ⟨(persisted_table_shape c8Store (by decide)).2.2.1,
   (persisted_table_shape c8Store (by decide)).2.2.2.1⟩

theorem mergeRow_toDict_first_seen (old : Row) (l : Listing) (now : String) :
    mergeRow old (toDict l) now Col.first_seen = old Col.first_seen := by
  simp [mergeRow, toDict]

theorem mergeRow_toDict_last_seen (old : Row) (l : Listing) (now : String) :
    mergeRow old (toDict l) now Col.last_seen = some (.vStr now) := by
  simp [mergeRow, toDict]

theorem mergeStep_lookup_some (now : String)
    (acc : (Nat × Nat × Nat) × Store) (l : Listing) (old : Row)
    (h : storeLookup acc.2 l.id = some old) :
    mergeStep now acc l =
      (if rowEqb (mergeRow old (toDict l) now) old then
        ((acc.1.1, acc.1.2.1, acc.1.2.2 + 1), acc.2)
      else
        ((acc.1.1, acc.1.2.1 + 1, acc.1.2.2),
          storeSet acc.2 l.id (mergeRow old (toDict l) now))) := by
  simp only [mergeStep, h]

theorem mergeStep_lookup_none (now : String)
    (acc : (Nat × Nat × Nat) × Store) (l : Listing)
    (h : storeLookup acc.2 l.id = none) :
    mergeStep now acc l =
      ((acc.1.1 + 1, acc.1.2.1, acc.1.2.2),
        storeSet acc.2 l.id (addedRow l now)) := by
  simp only [mergeStep, h]

theorem storeLookup_mergeStep_ne (now : String)
    (acc : (Nat × Nat × Nat) × Store) (l : Listing) (X : String)
    (hne : l.id ≠ X) :
    storeLookup (mergeStep now acc l).2 X = storeLookup acc.2 X := by
  have hx : X ≠ l.id := fun hx => hne hx.symm
  cases h : storeLookup acc.2 l.id with
  | some old =>
      rw [mergeStep_lookup_some now acc l old h]
      by_cases he : rowEqb (mergeRow old (toDict l) now) old
      · simp [he]
      · simp [he, storeLookup_set_ne _ _ _ _ hx]
  | none =>
      rw [mergeStep_lookup_none now acc l h]
      simp [storeLookup_set_ne _ _ _ _ hx]

theorem mergeStep_estab (now : String) (acc : (Nat × Nat × Nat) × Store)
    (l : Listing) (X T1 : String) (hid : l.id = X)
    (h : ∃ r, storeLookup acc.2 X = some r ∧
      r Col.first_seen = some (.vStr T1)) :
    ∃ r, storeLookup (mergeStep now acc l).2 X = some r ∧
      r Col.first_seen = some (.vStr T1) ∧
      r Col.last_seen = some (.vStr now) := by
  obtain ⟨old, hl, hf⟩ := h
  subst hid
  rw [mergeStep_lookup_some now acc l old hl]
  by_cases he : rowEqb (mergeRow old (toDict l) now) old
  · have heq : mergeRow old (toDict l) now = old := rowEqb_iff.mp he
    refine ⟨old, by simp [he, hl], hf, ?_⟩
    calc old Col.last_seen
        = mergeRow old (toDict l) now Col.last_seen := by rw [heq]
      _ = some (.vStr now) := mergeRow_toDict_last_seen _ _ _
  · refine ⟨mergeRow old (toDict l) now, ?_, ?_, ?_⟩
    · simp [he, storeLookup_set_self]
    · rw [mergeRow_toDict_first_seen]
      exact hf
    · exact mergeRow_toDict_last_seen _ _ _

theorem loop_keeps_seen_record (now : String) (batch : List Listing)
    (acc : (Nat × Nat × Nat) × Store) (X T1 : String)
    (h : ∃ r, storeLookup acc.2 X = some r ∧
      r Col.first_seen = some (.vStr T1) ∧
      r Col.last_seen = some (.vStr now)) :
    ∃ r, storeLookup (batch.foldl (mergeStep now) acc).2 X = some r ∧
      r Col.first_seen = some (.vStr T1) ∧
      r Col.last_seen = some (.vStr now) := by
  induction batch generalizing acc with
  | nil => exact h
  | cons l rest ih =>
      simp only [List.foldl_cons]
      apply ih
      by_cases hid : l.id = X
      · obtain ⟨r, hl, hf, _⟩ := h
        exact mergeStep_estab now acc l X T1 hid ⟨r, hl, hf⟩
      · rw [storeLookup_mergeStep_ne now acc l X hid]
        exact h

theorem loop_estab_seen_record (now : String) (batch : List Listing)
    (acc : (Nat × Nat × Nat) × Store) (X T1 : String)
    (hX : X ∈ batch.map Listing.id)
    (h : ∃ r, storeLookup acc.2 X = some r ∧
      r Col.first_seen = some (.vStr T1)) :
    ∃ r, storeLookup (batch.foldl (mergeStep now) acc).2 X = some r ∧
      r Col.first_seen = some (.vStr T1) ∧
      r Col.last_seen = some (.vStr now) := by
  induction batch generalizing acc with
  | nil => simp at hX
  | cons l rest ih =>
      simp only [List.foldl_cons]
      by_cases hid : l.id = X
      · exact loop_keeps_seen_record now rest _ X T1
          (mergeStep_estab now acc l X T1 hid h)
      · have hX' : X ∈ rest.map Listing.id := by
          rw [List.map_cons] at hX
          rcases List.mem_cons.mp hX with h0 | h0
          · exact absurd h0.symm hid
          · exact h0
        refine ih _ hX' ?_
        rw [storeLookup_mergeStep_ne now acc l X hid]
        exact h

/-- **C1** (confirmed). If the store holds a record with id `X` and
`first_seen = T1` and the merged batch contains a listing with id `X`, then
after `merge_listings` at timestamp `T2` the stored record still has
`first_seen = T1` and has `last_seen = T2` (`CsvStore.merge_listings`,
`CsvStore._merge_row`). -/
theorem merge_preserves_first_seen (s : Store) (batch : List Listing)
    (X T1 T2 : String) (mark : Bool) (r : Row)
    (hr : storeLookup s X = some r)
    (h1 : r Col.first_seen = some (.vStr T1))
    (hX : X ∈ batch.map Listing.id) :
    ∃ r', storeLookup (mergeListings s batch T2 mark).2 X = some r' ∧
      r' Col.first_seen = some (.vStr T1) ∧
      r' Col.last_seen = some (.vStr T2) := by
  obtain ⟨r', hl', hf', hls'⟩ :=
    loop_estab_seen_record T2 batch (((0, 0, 0) : Nat × Nat × Nat), s) X T1 hX
      ⟨r, hr, h1⟩
  simp only [mergeListings]
  cases mark with
  | false => exact ⟨r', by simpa using hl', hf', hls'⟩
  | true =>
      refine ⟨r', ?_, hf', hls'⟩
      simp only [if_true]
      rw [markMissing, storeLookup_map_value, hl']
      have hseen : X ∈ batch.map Listing.id := hX
      simp [markRow, hseen]

/-- A seeded one-record store for the C1 witness. -/
def c1Store : Store := [("12345", c3OldRow)]

/-- The updated observation of listing `"12345"` merged at `T2`. -/
def c1Upd : Listing :=
  { id := "12345", url := "https://www.kv.ee/12345.html",
    title := "Updated apartment", deal_type := "sale", price := some 110000 }

/-- Witness for C1: the seeded record keeps `first_seen = "T1"` and gets
`last_seen = "T2"`. -/
theorem merge_preserves_first_seen_witness :
    ∃ r', storeLookup (mergeListings c1Store [c1Upd] "T2" false).2 "12345" =
        some r' ∧
      r' Col.first_seen = some (.vStr "T1") ∧
      r' Col.last_seen = some (.vStr "T2") :=
  merge_preserves_first_seen c1Store [c1Upd] "12345" "T1" "T2" false c3OldRow
    rfl rfl (by decide)

theorem parseListingCard_id_eq (dt now : String) (c : Container)
    (l : Listing) (h : parseListingCard dt now c = some l) :
    ∃ lid, c.dataObjectId = some lid ∧ lid ≠ "" ∧ l.id = lid := by
  cases hido : c.dataObjectId with
  | none => simp [parseListingCard, hido] at h
  | some lid =>
      by_cases hl : lid = ""
      · subst hl
        simp [parseListingCard, hido] at h
      · refine ⟨lid, rfl, hl, ?_⟩
        simp only [parseListingCard, hido, if_neg hl] at h
        cases h
        rfl

theorem parseSearchResults_card (dt now : String) (html : List Char)
    (cs : List Container) (l : Listing)
    (h : l ∈ parseSearchResults dt now html cs) :
    ∃ c ∈ cs, parseListingCard dt now c = some l := by
  simp only [parseSearchResults, List.mem_filterMap] at h
  obtain ⟨c, hc, hfc⟩ := h
  refine ⟨c, hc, ?_⟩
  cases hr : findRecommendedSectionPosition html with
  | none =>
      rw [hr] at hfc
      exact hfc
  | some p =>
      rw [hr] at hfc
      by_cases he : excludedByRecommended html p c
      · simp [he] at hfc
      · simpa [he] using hfc

/-- A container with no `data-object-id` but a perfectly resolvable URL. -/
def c10UrlOnly : Container :=
  { dataObjectUrl := some "/en/nice-title-123.html",
    descH2AHref := some "/en/nice-title-123.html" }

/-- **C10** (confirmed). Every listing produced by `parse_search_results`
takes its non-empty id from the container's `data-object-id` attribute; a
container whose attribute is missing or empty is skipped even when a URL is
resolvable, and the id is never derived from the URL in search-results mode
(`KvParser._parse_listing_card`). -/
theorem search_results_id_from_attribute :
    (∀ dt now c l, parseListingCard dt now c = some l →
      ∃ lid, c.dataObjectId = some lid ∧ lid ≠ "" ∧ l.id = lid) ∧
    (∀ dt now c, c.dataObjectId = none ∨ c.dataObjectId = some "" →
      parseListingCard dt now c = none) ∧
    (∀ dt now html cs l, l ∈ parseSearchResults dt now html cs →
      l.id ≠ "") ∧
    parseListingCard "sale" "N" c10UrlOnly = none := by
  refine ⟨parseListingCard_id_eq, ?_, ?_, rfl⟩
  · intro dt now c h
    rcases h with h | h <;> simp [parseListingCard, h]
  · intro dt now html cs l h
    obtain ⟨c, _, hcard⟩ := parseSearchResults_card dt now html cs l h
    obtain ⟨lid, _, hne, hid⟩ := parseListingCard_id_eq dt now c l hcard
    rw [hid]
    exact hne

/-- A concrete card with an id attribute, for the C10 witness. -/
def c10Card : Container :=
  { dataObjectId := some "42", dataObjectUrl := some "/x-42.html" }

/-- The listing `c10Card` parses to. -/
def c10Listing : Listing :=
  { id := "42", url := "https://www.kv.ee/x-42.html", title := "",
    deal_type := "sale", first_seen := some "N", last_seen := some "N" }

/-- Witness for C10: a parsed concrete card carries its attribute id. -/
theorem search_results_id_from_attribute_witness :
    ∃ lid, c10Card.dataObjectId = some lid ∧ lid ≠ "" ∧
      c10Listing.id = lid :=
  search_results_id_from_attribute.1 "sale" "N" c10Card c10Listing
    (by decide)

/-- A search page: two primary listings, a recommended-section heading,
then two recommended listings. -/
def c4Html : String :=
  "<html><body><article data-object-id=\x221111111\x22 data-object-url=\x22/a-1111111.html\x22></article><article data-object-id=\x222222222\x22 data-object-url=\x22/b-2222222.html\x22></article><h3>Listings that might interest you</h3><article data-object-id=\x229999991\x22 data-object-url=\x22/c-9999991.html\x22></article><article data-object-id=\x229999992\x22 data-object-url=\x22/d-9999992.html\x22></article></body></html>"

/-- The four containers of `c4Html`, in document order. -/
def c4Containers : List Container :=
  [{ dataObjectId := some "1111111", dataObjectUrl := some "/a-1111111.html" },
   { dataObjectId := some "2222222", dataObjectUrl := some "/b-2222222.html" },
   { dataObjectId := some "9999991", dataObjectUrl := some "/c-9999991.html" },
   { dataObjectId := some "9999992", dataObjectUrl := some "/d-9999992.html" }]

/-- A page without any recommended-section heading. -/
def c4NoHeadHtml : String := "<html><body>results</body></html>"

/-- **C4** (confirmed). `parse_search_results` excludes exactly the
containers whose `data-object-id` raw-text marker starts after the detected
recommended-section heading position (first marker phrase of the table that
occurs, case-insensitive, in the raw document); with no heading every
container is included; and on the concrete two-plus-two page exactly the two
primary ids are returned. -/
theorem recommended_section_exclusion :
    (∀ dt now html cs, findRecommendedSectionPosition html = none →
      parseSearchResults dt now html cs =
        cs.filterMap fun c => parseListingCard dt now c) ∧
    (∀ dt now html cs p l, findRecommendedSectionPosition html = some p →
      (l ∈ parseSearchResults dt now html cs ↔
        ∃ c ∈ cs, excludedByRecommended html p c = false ∧
          parseListingCard dt now c = some l)) ∧
    (∀ html p c, excludedByRecommended html p c = true ↔
      ∃ lid, c.dataObjectId = some lid ∧ lid ≠ "" ∧
        ∃ ap, findSub html (articleMarker lid) = some ap ∧ p < ap) ∧
    (parseSearchResults "sale" "N" c4Html.toList c4Containers).map
      Listing.id = ["1111111", "2222222"] := by
  refine ⟨?_, ?_, ?_, by set_option maxRecDepth 4000 in decide⟩
  · intro dt now html cs h
    simp only [parseSearchResults, h]
  · intro dt now html cs p l h
    simp only [parseSearchResults, h, List.mem_filterMap]
    refine exists_congr fun c => and_congr_right fun _ => ?_
    by_cases he : excludedByRecommended html p c
    · simp [he]
    · simp [he]
  · intro html p c
    cases hido : c.dataObjectId with
    | none => simp [excludedByRecommended, hido]
    | some lid =>
        by_cases hl : lid = ""
        · subst hl
          simp [excludedByRecommended, hido]
        · cases hf : findSub html (articleMarker lid) with
          | none => simp [excludedByRecommended, hido, hl, hf]
          | some ap =>
              simp [excludedByRecommended, hido, hl, hf,
                decide_eq_true_iff]

/-- Witness for C4: with no heading in the page, every container is parsed. -/
theorem recommended_section_exclusion_witness :
    parseSearchResults "sale" "N" c4NoHeadHtml.toList c4Containers =
      c4Containers.filterMap fun c => parseListingCard "sale" "N" c :=
  recommended_section_exclusion.1 "sale" "N" c4NoHeadHtml.toList c4Containers
    (by decide)

theorem containsSub_infix_iff (h n : List Char) :
    containsSub h n = true ↔ n <:+: h := by
  rw [containsSub, findSub]
  exact findSubFrom_isSome_iff n h 0

theorem pf_pos_ne_zero {a : PyFloat} (h : (0 : PyFloat) < a) : a ≠ 0 := by
  intro he
  rw [he] at h
  exact absurd h (by decide)

/-- A detail page with two overlay elements; only the second carries the
reserved word, so the source's `select_one` misses it. -/
def c5CounterPage : DetailPage :=
  { html := ("<div class=\x22overlay\x22>ok</div>" ++
      "<div class=\x22overlay\x22>xx broneeritud</div>").toList,
    overlayTexts := ["ok", "xx broneeritud"] }

/-- A reserved detail page: the parenthesized marker in a header cell. -/
def c5ReservedPage : DetailPage :=
  { html := "<th>Müüa korter (Broneeritud)</th>".toList,
    thTexts := ["Müüa korter (Broneeritud)"] }

/-- Counterexample to C5 as stated: the bare word `broneeritud` appears
inside a status/overlay element of the page (the second one), no
parenthesized marker is present, yet the parser reports the listing active —
`_detect_reserved_status` checks only the first matching overlay element. -/
theorem reserved_status_counterexample :
    "xx broneeritud" ∈ c5CounterPage.overlayTexts ∧
    containsSub (pyLowerL "xx broneeritud".toList) "broneeritud".toList =
      true ∧
    containsSub (pyLowerL c5CounterPage.html) "(broneeritud)".toList =
      false ∧
    containsSub (pyLowerL c5CounterPage.html) "(reserved)".toList = false ∧
    detectReserved c5CounterPage = false ∧
    (parseListingPage "sale" "N" c5CounterPage "1").map Listing.is_active =
      some true ∧
    (parseListingPage "sale" "N" c5CounterPage "1").map Listing.status =
      some (some "active") := by
  refine ⟨by decide, by decide, by decide, by decide, by decide, rfl, rfl⟩

/-- **C5** (corrected). `parse_listing_page` marks the listing reserved iff
(a) the raw document contains `"(Broneeritud)"` or `"(Reserved)"`
case-insensitively, or (b) the bare word `broneeritud` occurs in the *first*
status/overlay element (the one `select_one` returns) or in any table header
cell; reserved sets `is_active = false`, `status = "reserved"`, otherwise
`is_active = true`, `status = "active"`. The hypotheses couple the element
texts to the raw document they came from. -/
theorem reserved_status_detection (dt now lid : String) (page : DetailPage)
    (hov : ∀ o, page.overlayTexts.head? = some o →
      pyLowerL o.toList <:+: pyLowerL page.html)
    (hth : ∀ t ∈ page.thTexts,
      pyLowerL t.toList <:+: pyLowerL page.html) :
    (detectReserved page = true ↔
      (containsSub (pyLowerL page.html) "(broneeritud)".toList = true ∨
       containsSub (pyLowerL page.html) "(reserved)".toList = true ∨
       (∃ o, page.overlayTexts.head? = some o ∧
         containsSub (pyLowerL o.toList) "broneeritud".toList = true) ∨
       (∃ t ∈ page.thTexts,
         containsSub (pyLowerL t.toList) "broneeritud".toList = true))) ∧
    (parseListingPage dt now page lid).map Listing.is_active =
      some (!detectReserved page) ∧
    (parseListingPage dt now page lid).map Listing.status =
      some (some (if detectReserved page then "reserved" else "active")) := by
  refine ⟨?_, rfl, rfl⟩
  by_cases hA : containsSub (pyLowerL page.html) "(broneeritud)".toList =
      true ∨ containsSub (pyLowerL page.html) "(reserved)".toList = true
  · simp [detectReserved, hA]
    tauto
  · have hA1 : ¬containsSub (pyLowerL page.html) "(broneeritud)".toList =
        true := fun hx => hA (Or.inl hx)
    have hA2 : ¬containsSub (pyLowerL page.html) "(reserved)".toList =
        true := fun hx => hA (Or.inr hx)
    by_cases hB : containsSub (pyLowerL page.html) "broneeritud".toList =
        true
    · simp only [detectReserved, if_neg hA, if_pos hB]
      cases hh : page.overlayTexts.head? with
      | some o =>
          simp only [hh, Bool.or_eq_true, List.any_eq_true]
          constructor
          · intro hx
            rcases hx with hx | ⟨t, ht, hc⟩
            · exact Or.inr (Or.inr (Or.inl ⟨o, rfl, hx⟩))
            · exact Or.inr (Or.inr (Or.inr ⟨t, ht, hc⟩))
          · intro hx
            rcases hx with hx | hx | ⟨o', ho', hc⟩ | ⟨t, ht, hc⟩
            · exact absurd hx hA1
            · exact absurd hx hA2
            · cases ho'
              exact Or.inl hc
            · exact Or.inr ⟨t, ht, hc⟩
      | none =>
          simp only [hh, Bool.false_or, List.any_eq_true]
          constructor
          · intro hx
            obtain ⟨t, ht, hc⟩ := hx
            exact Or.inr (Or.inr (Or.inr ⟨t, ht, hc⟩))
          · intro hx
            rcases hx with hx | hx | ⟨o', ho', hc⟩ | ⟨t, ht, hc⟩
            · exact absurd hx hA1
            · exact absurd hx hA2
            · cases ho'
            · exact ⟨t, ht, hc⟩
    · have hno : ∀ o, page.overlayTexts.head? = some o →
          ¬containsSub (pyLowerL o.toList) "broneeritud".toList = true := by
        intro o ho hc
        exact hB ((containsSub_infix_iff _ _).mpr
          (((containsSub_infix_iff _ _).mp hc).trans (hov o ho)))
      have hnt : ∀ t ∈ page.thTexts,
          ¬containsSub (pyLowerL t.toList) "broneeritud".toList = true := by
        intro t ht hc
        exact hB ((containsSub_infix_iff _ _).mpr
          (((containsSub_infix_iff _ _).mp hc).trans (hth t ht)))
      simp only [detectReserved, if_neg hA, if_neg hB]
      constructor
      · intro hx
        cases hx
      · intro hx
        rcases hx with hx | hx | ⟨o, ho, hc⟩ | ⟨t, ht, hc⟩
        · exact absurd hx hA1
        · exact absurd hx hA2
        · exact absurd hc (hno o ho)
        · exact absurd hc (hnt t ht)

/-- Witness for C5 (amended): the concrete reserved page is detected via
the parenthesized marker and reported inactive. -/
theorem reserved_status_detection_witness :
    detectReserved c5ReservedPage = true ∧
    (parseListingPage "sale" "N" c5ReservedPage "3768144").map
      Listing.is_active = some (!detectReserved c5ReservedPage) := by
  have h := reserved_status_detection "sale" "N" "3768144" c5ReservedPage
    (by intro o ho; simp [c5ReservedPage] at ho)
    (by
      intro t ht
      rcases List.mem_singleton.mp ht with rfl
      exact (containsSub_infix_iff _ _).mp (by decide))
  exact ⟨h.1.mpr (Or.inl (by decide)), h.2.1⟩

/-- A concrete card with price `150 000 €`, area `60,5 m²` and no stated
per-area value. -/
def c6Card : Container :=
  { dataObjectId := some "8",
    priceDiv :=
      some { children := [.textNode "150 000 €"], smallText := none },
    areaText := some "60,5 m²" }

/-- The listing `c6Card` parses to. -/
def c6Listing : Listing :=
  { id := "8", url := "", title := "", deal_type := "sale",
    price := some 150000,
    price_per_m2 := some (round2 (pfDiv (pfOfInt 150000) (mkPyFloat 121 2))),
    area_m2 := some (mkPyFloat 121 2), first_seen := some "N",
    last_seen := some "N" }

/-- A concrete card with price text `0 €`: the price parses to `0`, which
is falsy in the source's guard. -/
def c6ZeroCard : Container :=
  { dataObjectId := some "7",
    priceDiv := some { children := [.textNode "0 €"], smallText := none },
    areaText := some "50" }

/-- Counterexample to C6 as stated: a listing with present price `0`,
present area `50 > 0` and no stated per-area value gets `price_per_m2 =
None`, not `round(0 / 50, 2) = 0.0` — the source's guard `if ... and price
and area ...` uses Python truthiness, so a zero price never triggers the
computation. -/
theorem price_per_m2_zero_price_counterexample :
    (parseListingCard "sale" "N" c6ZeroCard).map Listing.price =
      some (some 0) ∧
    (parseListingCard "sale" "N" c6ZeroCard).map Listing.area_m2 =
      some (some (pfOfInt 50)) ∧
    cardStatedPpm c6ZeroCard = none ∧
    round2 (pfDiv (pfOfInt 0) (pfOfInt 50)) = 0 ∧
    (parseListingCard "sale" "N" c6ZeroCard).map Listing.price_per_m2 =
      some none := by
  refine ⟨by decide, by decide, by decide, by decide, by decide⟩

/-- **C6** (corrected). In search-card extraction, when the page states a
per-area value it is used as `price_per_m2`; otherwise, when the price is
present *and non-zero* and the area is present and positive,
`price_per_m2 = round(price / area, 2)` with two-decimal round-half-to-even
(modelled over exact rationals); and `round2 (150000 / 60.5)` is `2479.34`.
A present price of `0` does not trigger the computation (Python
truthiness), which is the one amendment to the claim. -/
theorem price_per_m2_derivation :
    (∀ dt now c l v, parseListingCard dt now c = some l →
      cardStatedPpm c = some v → l.price_per_m2 = some v) ∧
    (∀ dt now c l p a, parseListingCard dt now c = some l →
      cardStatedPpm c = none → l.price = some p → p ≠ 0 →
      l.area_m2 = some a → 0 < a →
      l.price_per_m2 = some (round2 (pfDiv (pfOfInt p) a))) ∧
    round2 (pfDiv (pfOfInt 150000) (mkPyFloat 121 2)) = ⟨123967, 50⟩ ∧
    PyFloat.toRat ⟨123967, 50⟩ = (123967 : ℚ) / 50 ∧
    (parseListingCard "sale" "N" c6Card).map Listing.price_per_m2 =
      some (some (round2 (pfDiv (pfOfInt 150000) (mkPyFloat 121 2)))) := by
  refine ⟨?_, ?_, by decide, by norm_num [PyFloat.toRat] , by decide⟩
  · intro dt now c l v h hst
    cases hido : c.dataObjectId with
    | none => simp [parseListingCard, hido] at h
    | some lid =>
        by_cases hl : lid = ""
        · subst hl
          simp [parseListingCard, hido] at h
        · simp only [parseListingCard, hido, if_neg hl] at h
          cases h
          simp only [hst]
  · intro dt now c l p a h hst hp hp0 ha ha0
    cases hido : c.dataObjectId with
    | none => simp [parseListingCard, hido] at h
    | some lid =>
        by_cases hl : lid = ""
        · subst hl
          simp [parseListingCard, hido] at h
        · simp only [parseListingCard, hido, if_neg hl] at h
          cases h
          simp only [Listing.price] at hp
          simp only [Listing.area_m2] at ha
          simp only [hst, hp, ha]
          rw [if_pos ⟨hp0, pf_pos_ne_zero ha0, ha0⟩]

/-- Witness for C6 (amended): the computed derivation at the concrete
card. -/
theorem price_per_m2_derivation_witness :
    c6Listing.price_per_m2 =
      some (round2 (pfDiv (pfOfInt 150000) (mkPyFloat 121 2))) :=
  price_per_m2_derivation.2.1 "sale" "N" c6Card c6Listing 150000
    (mkPyFloat 121 2) (by decide) (by decide) (by decide) (by decide)
    (by decide) (by decide)

theorem strLe_refl (a : String) : strLeProp a a :=
  charListLe_refl a.toList

theorem strLe_trans {a b c : String} (hab : strLeProp a b)
    (hbc : strLeProp b c) : strLeProp a c :=
  charListLe_trans a.toList b.toList c.toList hab hbc

/-- The timestamp invariant of a store: every record carries string
timestamps with `first_seen ≤ last_seen ≤ t`. -/
def StoreInv (t : String) (s : Store) : Prop :=
  ∀ p ∈ s, ∃ f l, p.2 Col.first_seen = some (.vStr f) ∧
    p.2 Col.last_seen = some (.vStr l) ∧ strLeProp f l ∧ strLeProp l t

theorem storeInv_mono {t t' : String} {s : Store} (h : strLeProp t t')
    (hs : StoreInv t s) : StoreInv t' s := by
  intro p hp
  obtain ⟨f, l, h1, h2, h3, h4⟩ := hs p hp
  exact ⟨f, l, h1, h2, h3, strLe_trans h4 h⟩

theorem storeInv_set (t : String) (s : Store) (k : String) (v : Row)
    (hs : StoreInv t s)
    (hv : ∃ f l, v Col.first_seen = some (.vStr f) ∧
      v Col.last_seen = some (.vStr l) ∧ strLeProp f l ∧ strLeProp l t) :
    StoreInv t (storeSet s k v) := by
  intro p hp
  rcases mem_storeSet s k v p hp with hp | hp
  · exact hs p hp
  · rw [hp]
    exact hv

theorem storeInv_mergeStep (now : String)
    (acc : (Nat × Nat × Nat) × Store) (l : Listing)
    (h : StoreInv now acc.2) : StoreInv now (mergeStep now acc l).2 := by
  cases hl : storeLookup acc.2 l.id with
  | some old =>
      rw [mergeStep_lookup_some now acc l old hl]
      by_cases he : rowEqb (mergeRow old (toDict l) now) old
      · simpa [he] using h
      · simp only [he, Bool.false_eq_true, if_false]
        apply storeInv_set _ _ _ _ h
        obtain ⟨f, lo, hf, hlo, hfl, hlt⟩ :=
          h (l.id, old) (storeLookup_mem _ _ _ hl)
        exact ⟨f, now, by rw [mergeRow_toDict_first_seen]; exact hf,
          mergeRow_toDict_last_seen _ _ _, strLe_trans hfl hlt,
          strLe_refl now⟩
  | none =>
      rw [mergeStep_lookup_none now acc l hl]
      apply storeInv_set _ _ _ _ h
      exact ⟨now, now, by simp [addedRow], by simp [addedRow],
        strLe_refl now, strLe_refl now⟩

theorem storeInv_fold (now : String) (batch : List Listing)
    (acc : (Nat × Nat × Nat) × Store) (h : StoreInv now acc.2) :
    StoreInv now (batch.foldl (mergeStep now) acc).2 := by
  induction batch generalizing acc with
  | nil => exact h
  | cons l rest ih =>
      simp only [List.foldl_cons]
      exact ih _ (storeInv_mergeStep now acc l h)

theorem storeInv_markMissing (now : String) (s : Store)
    (seen : List String) (h : StoreInv now s) :
    StoreInv now (markMissing s seen now) := by
  intro p hp
  simp only [markMissing, List.mem_map] at hp
  obtain ⟨q, hq, rfl⟩ := hp
  obtain ⟨f, l0, hf, hl0, hfl, hlt⟩ := h q hq
  by_cases hc : q.1 ∉ seen ∧ q.2 Col.is_active = some (.vStr "true")
  · rw [markRow, if_pos hc]
    exact ⟨f, now, by simp [hf], by simp, strLe_trans hfl hlt,
      strLe_refl now⟩
  · rw [markRow, if_neg hc]
    exact ⟨f, l0, hf, hl0, hfl, hlt⟩

theorem storeInv_mergeListings (t now : String) (s : Store)
    (batch : List Listing) (mark : Bool) (hle : strLeProp t now)
    (h : StoreInv t s) :
    StoreInv now (mergeListings s batch now mark).2 := by
  have h' := storeInv_fold now batch (((0, 0, 0) : Nat × Nat × Nat), s)
    (storeInv_mono hle h)
  simp only [mergeListings]
  cases mark with
  | false => simpa using h'
  | true =>
      simp only [if_true]
      exact storeInv_markMissing now _ _ h'

theorem storeLookup_isSome_of_mem_keys (s : Store) (k : String)
    (h : k ∈ s.map Prod.fst) : (storeLookup s k).isSome := by
  induction s with
  | nil => simp at h
  | cons p t ih =>
      obtain ⟨k₀, v₀⟩ := p
      by_cases h0 : k₀ = k
      · simp [storeLookup, h0]
      · simp only [List.map_cons, List.mem_cons] at h
        rcases h with h | h
        · exact absurd h.symm h0
        · simpa [storeLookup, h0] using ih h

theorem storeInv_roundTrip (t : String) (s : Store) (h : StoreInv t s) :
    StoreInv t (roundTrip s) := by
  intro p hp
  simp only [roundTrip, List.mem_filterMap] at hp
  obtain ⟨k, hk, hg⟩ := hp
  by_cases hid : cellStr (getRow s k Col.id) = ""
  · rw [if_pos hid] at hg
    cases hg
  · rw [if_neg hid] at hg
    cases hg
    have hk' : k ∈ s.map Prod.fst := by
      rw [sortKeys] at hk
      exact (List.perm_insertionSort strLeProp (s.map Prod.fst)).subset hk
    obtain ⟨r, hr⟩ :=
      Option.isSome_iff_exists.mp (storeLookup_isSome_of_mem_keys s k hk')
    obtain ⟨f, l0, hf, hl0, hfl, hlt⟩ :=
      h (k, r) (storeLookup_mem s k r hr)
    have hget : getRow s k = r := by
      rw [getRow, hr]
      rfl
    have hf' : r Col.first_seen = some (.vStr f) := hf
    have hl0' : r Col.last_seen = some (.vStr l0) := hl0
    refine ⟨f, l0, ?_, ?_, hfl, hlt⟩
    · show roundTripRow (getRow s k) Col.first_seen = some (.vStr f)
      rw [roundTripRow]
      rw [if_pos (by decide : Col.first_seen ∈ csvCols), hget, hf']
      rfl
    · show roundTripRow (getRow s k) Col.last_seen = some (.vStr l0)
      rw [roundTripRow]
      rw [if_pos (by decide : Col.last_seen ∈ csvCols), hget, hl0']
      rfl

theorem storeInv_runTrace (tr : List (List Listing × String × Bool)) :
    ∀ (s : Store) (t : String), nowsNondec t tr → StoreInv t s →
      ∃ t', StoreInv t' (runTrace s tr) := by
  induction tr with
  | nil =>
      intro s t _ h
      exact ⟨t, h⟩
  | cons e rest ih =>
      obtain ⟨b, n, m⟩ := e
      intro s t hnd h
      obtain ⟨hle, hrest⟩ := hnd
      exact ih _ n hrest
        (storeInv_roundTrip n _ (storeInv_mergeListings t n s b m hle h))

/-- **C9** (confirmed). Every store reachable from the empty store by a
sequence of persisted `merge_listings` calls with non-decreasing batch
timestamps has `first_seen ≤ last_seen` (in the string order ISO timestamps
sort by) on every stored record: insertion sets both to `now`, later
sightings keep `first_seen` and move `last_seen` to the later `now`, and
the mark-missing-inactive pass only moves `last_seen` forward. -/
theorem first_seen_le_last_seen (tr : List (List Listing × String × Bool))
    (t : String) (hnd : nowsNondec t tr) (lid : String) (r : Row)
    (hr : storeLookup (runTrace [] tr) lid = some r) :
    ∃ f l, r Col.first_seen = some (.vStr f) ∧
      r Col.last_seen = some (.vStr l) ∧ strLeProp f l := by
  obtain ⟨t', hinv⟩ := storeInv_runTrace tr [] t hnd
    (fun p hp => absurd hp (List.not_mem_nil p))
  obtain ⟨f, l0, hf, hl0, hfl, _⟩ :=
    hinv (lid, r) (storeLookup_mem _ _ _ hr)
  exact ⟨f, l0, hf, hl0, hfl⟩

/-- A concrete two-merge trace: the same listing observed at `T1` and the
mark-missing pass enabled at `T2`. -/
def c9Trace : List (List Listing × String × Bool) :=
  [([c1Upd], "T1", false), ([c1Upd], "T2", true)]

/-- The record the trace leaves for id `"12345"`. -/
def c9Row : Row := getRow (runTrace [] c9Trace) "12345"

/-- Witness for C9 at the concrete trace. -/
theorem first_seen_le_last_seen_witness :
    ∃ f l, c9Row Col.first_seen = some (.vStr f) ∧
      c9Row Col.last_seen = some (.vStr l) ∧ strLeProp f l :=
  first_seen_le_last_seen c9Trace "T0"
    (by exact ⟨by decide, by decide, trivial⟩) "12345" c9Row rfl

theorem storeLookup_append_none (s t : Store) (k : String)
    (h : storeLookup s k = none) :
    storeLookup (s ++ t) k = storeLookup t k := by
  induction s with
  | nil => rfl
  | cons p s' ih =>
      obtain ⟨k₀, v₀⟩ := p
      by_cases h0 : k₀ = k
      · simp [storeLookup, h0] at h
      · simp only [storeLookup, h0, if_neg] at h
        simp only [List.cons_append, storeLookup, h0, if_neg]
        exact ih h

theorem mergeFold_all_new (now : String) :
    ∀ (batch : List Listing) (acc : (Nat × Nat × Nat) × Store),
      (∀ l ∈ batch, storeLookup acc.2 l.id = none) →
      (batch.map Listing.id).Nodup →
      batch.foldl (mergeStep now) acc =
        ((acc.1.1 + batch.length, acc.1.2.1, acc.1.2.2),
          acc.2 ++ batch.map fun l => (l.id, addedRow l now)) := by
  intro batch
  induction batch with
  | nil =>
      intro acc _ _
      obtain ⟨⟨a, u, n⟩, s⟩ := acc
      simp
  | cons l rest ih =>
      intro acc hnew hnd
      obtain ⟨⟨a, u, n⟩, s⟩ := acc
      have hl : storeLookup s l.id = none := hnew l (List.mem_cons_self l rest)
      simp only [List.map_cons, List.nodup_cons] at hnd
      obtain ⟨hnotin, hnd'⟩ := hnd
      have hnew' : ∀ l' ∈ rest,
          storeLookup (s ++ [(l.id, addedRow l now)]) l'.id = none := by
        intro l' hl'
        rw [storeLookup_append_none s _ _ (hnew l' (List.mem_cons_of_mem l hl'))]
        have : l.id ≠ l'.id := by
          intro he
          exact hnotin (he ▸ List.mem_map_of_mem Listing.id hl')
        simp [storeLookup, this]
      have hstep : mergeStep now ((a, u, n), s) l =
          ((a + 1, u, n), s ++ [(l.id, addedRow l now)]) := by
        rw [mergeStep_lookup_none now _ l hl,
          storeSet_of_lookup_none s l.id _ hl]
      simp only [List.foldl_cons, hstep]
      rw [ih ((a + 1, u, n), s ++ [(l.id, addedRow l now)]) hnew' hnd']
      simp only [List.append_assoc, List.singleton_append, List.map_cons,
        List.length_cons]
      refine congrArg₂ Prod.mk ?_ rfl
      refine congrArg₂ Prod.mk ?_ rfl
      omega

theorem storeLookup_map_batch (f : Listing → Row) :
    ∀ (batch : List Listing), (batch.map Listing.id).Nodup →
      ∀ l ∈ batch,
        storeLookup (batch.map fun l' => (l'.id, f l')) l.id = some (f l) := by
  intro batch
  induction batch with
  | nil =>
      intro _ l hl
      simp at hl
  | cons x rest ih =>
      intro hnd l hl
      simp only [List.map_cons, List.nodup_cons] at hnd
      obtain ⟨hnotin, hnd'⟩ := hnd
      rcases List.mem_cons.mp hl with rfl | hl'
      · simp [storeLookup]
      · have hx : x.id ≠ l.id := by
          intro he
          exact hnotin (he ▸ List.mem_map_of_mem Listing.id hl')
        simp only [List.map_cons, storeLookup, hx, if_neg]
        exact ih hnd' l hl'

theorem storeLookup_map_keys (h : String → Row) :
    ∀ (ks : List String) (X : String), X ∈ ks →
      storeLookup (ks.map fun k => (k, h k)) X = some (h X) := by
  intro ks
  induction ks with
  | nil =>
      intro X hX
      simp at hX
  | cons k rest ih =>
      intro X hX
      by_cases hk : k = X
      · subst hk
        simp [storeLookup]
      · rcases List.mem_cons.mp hX with rfl | hX'
        · exact absurd rfl hk
        · simp only [List.map_cons, storeLookup, hk, if_neg]
          exact ih X hX'

theorem storeLookup_fold_ne (now : String) :
    ∀ (batch : List Listing) (acc : (Nat × Nat × Nat) × Store) (X : String),
      (∀ l ∈ batch, l.id ≠ X) →
      storeLookup (batch.foldl (mergeStep now) acc).2 X =
        storeLookup acc.2 X := by
  intro batch
  induction batch with
  | nil => intro acc X _; rfl
  | cons l rest ih =>
      intro acc X hne
      simp only [List.foldl_cons]
      rw [ih _ X fun l' hl' => hne l' (List.mem_cons_of_mem l hl')]
      exact storeLookup_mergeStep_ne now acc l X (hne l (List.mem_cons_self l rest))

theorem mergeFold_all_existing (now : String) :
    ∀ (batch : List Listing) (acc : (Nat × Nat × Nat) × Store),
      (∀ l ∈ batch, (storeLookup acc.2 l.id).isSome) →
      (batch.foldl (mergeStep now) acc).1.1 = acc.1.1 ∧
      (batch.foldl (mergeStep now) acc).1.2.1 +
        (batch.foldl (mergeStep now) acc).1.2.2 =
        acc.1.2.1 + acc.1.2.2 + batch.length ∧
      (batch.foldl (mergeStep now) acc).2.map Prod.fst =
        acc.2.map Prod.fst := by
  intro batch
  induction batch with
  | nil =>
      intro acc _
      exact ⟨rfl, rfl, rfl⟩
  | cons l rest ih =>
      intro acc hsome
      obtain ⟨old, hl⟩ := Option.isSome_iff_exists.mp
        (hsome l (List.mem_cons_self l rest))
      simp only [List.foldl_cons]
      by_cases he : rowEqb (mergeRow old (toDict l) now) old
      · have hstep : mergeStep now acc l =
            ((acc.1.1, acc.1.2.1, acc.1.2.2 + 1), acc.2) := by
          rw [mergeStep_lookup_some now acc l old hl]
          simp [he]
        rw [hstep]
        obtain ⟨ih1, ih2, ih3⟩ := ih ((acc.1.1, acc.1.2.1, acc.1.2.2 + 1), acc.2)
          (fun l' hl' => hsome l' (List.mem_cons_of_mem l hl'))
        refine ⟨ih1, ?_, ih3⟩
        rw [ih2]
        simp only [List.length_cons]
        omega
      · have hstep : mergeStep now acc l =
            ((acc.1.1, acc.1.2.1 + 1, acc.1.2.2),
              storeSet acc.2 l.id (mergeRow old (toDict l) now)) := by
          rw [mergeStep_lookup_some now acc l old hl]
          simp [he]
        rw [hstep]
        obtain ⟨ih1, ih2, ih3⟩ := ih
          ((acc.1.1, acc.1.2.1 + 1, acc.1.2.2),
            storeSet acc.2 l.id (mergeRow old (toDict l) now))
          (fun l' hl' => storeLookup_isSome_set _ _ _ _
            (hsome l' (List.mem_cons_of_mem l hl')))
        refine ⟨ih1, ?_, ?_⟩
        · rw [ih2]
          simp only [List.length_cons]
          omega
        · rw [ih3]
          exact keys_storeSet_of_mem acc.2 l.id _ hl

theorem mergeFold_lookup_merged (now : String) (g : Listing → Row) :
    ∀ (batch : List Listing) (acc : (Nat × Nat × Nat) × Store),
      (batch.map Listing.id).Nodup →
      (∀ l ∈ batch, storeLookup acc.2 l.id = some (g l)) →
      ∀ l ∈ batch,
        storeLookup (batch.foldl (mergeStep now) acc).2 l.id =
          some (mergeRow (g l) (toDict l) now) := by
  intro batch
  induction batch with
  | nil =>
      intro acc _ _ l hl
      simp at hl
  | cons x rest ih =>
      intro acc hnd hlook l hl
      simp only [List.map_cons, List.nodup_cons] at hnd
      obtain ⟨hnotin, hnd'⟩ := hnd
      have hx : storeLookup acc.2 x.id = some (g x) :=
        hlook x (List.mem_cons_self x rest)
      simp only [List.foldl_cons]
      have hdiff : ∀ l' ∈ rest, l'.id ≠ x.id := by
        intro l' hl' he
        exact hnotin (he ▸ List.mem_map_of_mem Listing.id hl')
      by_cases he : rowEqb (mergeRow (g x) (toDict x) now) (g x)
      · have hstep : mergeStep now acc x =
            ((acc.1.1, acc.1.2.1, acc.1.2.2 + 1), acc.2) := by
          rw [mergeStep_lookup_some now acc x (g x) hx]
          simp [he]
        rw [hstep]
        rcases List.mem_cons.mp hl with rfl | hl'
        · rw [storeLookup_fold_ne now rest _ l.id hdiff]
          rw [hx, rowEqb_iff.mp he]
        · exact ih ((acc.1.1, acc.1.2.1, acc.1.2.2 + 1), acc.2) hnd'
            (fun l' hl' => hlook l' (List.mem_cons_of_mem x hl')) l hl'
      · have hstep : mergeStep now acc x =
            ((acc.1.1, acc.1.2.1 + 1, acc.1.2.2),
              storeSet acc.2 x.id (mergeRow (g x) (toDict x) now)) := by
          rw [mergeStep_lookup_some now acc x (g x) hx]
          simp [he]
        rw [hstep]
        rcases List.mem_cons.mp hl with rfl | hl'
        · rw [storeLookup_fold_ne now rest _ l.id hdiff]
          exact storeLookup_set_self _ _ _
        · refine ih _ hnd' ?_ l hl'
          intro l' hl'
          rw [storeLookup_set_ne _ _ _ _ (hdiff l' hl')]
          exact hlook l' (List.mem_cons_of_mem x hl')

theorem toDict_isSome (l : Listing) (c : Col) : ∃ v, toDict l c = some v := by
  cases c <;> exact ⟨_, rfl⟩

theorem cellStr_mergeRow_roundTrip (l : Listing) (now1 now2 : String)
    (c : Col) (hlast : c ≠ Col.last_seen) (hcsv : c ∈ csvCols) :
    cellStr (mergeRow (roundTripRow (addedRow l now1)) (toDict l) now2 c) =
      cellStr (addedRow l now1 c) := by
  obtain ⟨v, hv⟩ := toDict_isSome l c
  by_cases hf : c = Col.first_seen
  · subst hf
    simp [mergeRow, hv, roundTripRow,
      (by decide : Col.first_seen ∈ csvCols), cellStr]
  · have haddr : addedRow l now1 c = toDict l c := by
      simp [addedRow, hf, hlast]
    by_cases hp : presentValB v
    · simp [mergeRow, hv, hf, hlast, hp, haddr]
    · simp [mergeRow, hv, hf, hlast, hp, roundTripRow, hcsv, cellStr]

theorem roundTrip_map_of_id_cells (s : Store)
    (hcell : ∀ k ∈ sortKeys s, cellStr (getRow s k Col.id) = k)
    (hne : ∀ k ∈ sortKeys s, k ≠ "") :
    roundTrip s =
      (sortKeys s).map fun k => (k, roundTripRow (getRow s k)) := by
  rw [roundTrip]
  have hgen : ∀ (ks : List String),
      (∀ k ∈ ks, cellStr (getRow s k Col.id) = k) → (∀ k ∈ ks, k ≠ "") →
      (ks.filterMap fun k =>
        if cellStr (getRow s k Col.id) = "" then none
        else some (cellStr (getRow s k Col.id), roundTripRow (getRow s k))) =
        ks.map fun k => (k, roundTripRow (getRow s k)) := by
    intro ks
    induction ks with
    | nil => intro _ _; rfl
    | cons k rest ih =>
        intro h1 h2
        have hk1 := h1 k (List.mem_cons_self k rest)
        have hk2 := h2 k (List.mem_cons_self k rest)
        simp only [List.filterMap_cons, hk1, if_neg hk2]
        rw [ih (fun k' hk' => h1 k' (List.mem_cons_of_mem k hk'))
          (fun k' hk' => h2 k' (List.mem_cons_of_mem k hk')),
          List.map_cons]
  exact hgen (sortKeys s) hcell hne

/-- Counterexample to C2 as stated: merging the same one-listing batch
twice through the persisted store returns `(added=0, updated=1,
unchanged=0)` on the second call — not `(0, 0, 1)` — both when the second
timestamp differs and even when it is identical, because the CSV round-trip
stores every value as a string while `to_dict` supplies a typed (integer)
price, so the merged record always differs from the stored one. -/
theorem merge_idempotence_counterexample :
    (mergeListings [] [c1Upd] "T1" false).1 = (1, 0, 0) ∧
    (mergeListings (roundTrip (mergeListings [] [c1Upd] "T1" false).2)
      [c1Upd] "T2" false).1 = (0, 1, 0) ∧
    (mergeListings (roundTrip (mergeListings [] [c1Upd] "T1" false).2)
      [c1Upd] "T1" false).1 = (0, 1, 0) ∧
    ((0, 1, 0) : Nat × Nat × Nat) ≠ (0, 0, 1) := by
  refine ⟨by decide, by decide, by decide, by decide⟩

/-- **C2** (corrected). Re-merging an identical batch (distinct, non-empty
ids) through the persisted store: the second call adds nothing, classifies
every listing as updated or unchanged (`updated + unchanged = N`), and
leaves the persisted table identical on every column except `last_seen`.
The claimed `(0, 0, N)` does not hold: a listing counts as unchanged only
when its merged record equals the stored string-valued record, which fails
whenever a typed field (e.g. an integer price) is present or the two calls'
timestamps differ. -/
theorem merge_repeat_behavior (batch : List Listing) (now1 now2 : String)
    (hne : ∀ l ∈ batch, l.id ≠ "")
    (hnd : (batch.map Listing.id).Nodup) :
    (mergeListings [] batch now1 false).1 = (batch.length, 0, 0) ∧
    (mergeListings (roundTrip (mergeListings [] batch now1 false).2) batch
      now2 false).1.1 = 0 ∧
    (mergeListings (roundTrip (mergeListings [] batch now1 false).2) batch
        now2 false).1.2.1 +
      (mergeListings (roundTrip (mergeListings [] batch now1 false).2) batch
        now2 false).1.2.2 = batch.length ∧
    writeAllCols (csvCols.filter fun c => decide (c ≠ Col.last_seen))
      (mergeListings (roundTrip (mergeListings [] batch now1 false).2) batch
        now2 false).2 =
    writeAllCols (csvCols.filter fun c => decide (c ≠ Col.last_seen))
      (mergeListings [] batch now1 false).2 := by
  have h1 : batch.foldl (mergeStep now1)
      (((0, 0, 0) : Nat × Nat × Nat), ([] : Store)) =
      ((0 + batch.length, 0, 0),
        ([] : Store) ++ batch.map fun l => (l.id, addedRow l now1)) :=
    mergeFold_all_new now1 batch (((0, 0, 0) : Nat × Nat × Nat), [])
      (fun l _ => rfl) hnd
  have hs1 : (mergeListings [] batch now1 false).2 =
      batch.map fun l => (l.id, addedRow l now1) := by
    simp only [mergeListings, h1]
    simp
  have hc1 : (mergeListings [] batch now1 false).1 = (batch.length, 0, 0) := by
    simp only [mergeListings, h1]
    simp
  rw [hs1]
  set s1 := batch.map fun l => (l.id, addedRow l now1) with hs1d
  have hkeys1 : s1.map Prod.fst = batch.map Listing.id := by
    rw [hs1d, List.map_map]
    rfl
  have hget1 : ∀ l ∈ batch, getRow s1 l.id = addedRow l now1 := by
    intro l hl
    rw [hs1d, getRow,
      storeLookup_map_batch (fun l' => addedRow l' now1) batch hnd l hl]
    rfl
  have hperm : List.Perm (sortKeys s1) (batch.map Listing.id) := by
    rw [sortKeys, hkeys1]
    exact List.perm_insertionSort strLeProp (batch.map Listing.id)
  have hmemk : ∀ k ∈ sortKeys s1, ∃ l, l ∈ batch ∧ l.id = k := by
    intro k hk
    obtain ⟨l, hl, he⟩ := List.mem_map.mp (hperm.subset hk)
    exact ⟨l, hl, he⟩
  have hcell : ∀ k ∈ sortKeys s1, cellStr (getRow s1 k Col.id) = k := by
    intro k hk
    obtain ⟨l, hl, rfl⟩ := hmemk k hk
    rw [hget1 l hl]
    rfl
  have hner : ∀ k ∈ sortKeys s1, k ≠ "" := by
    intro k hk
    obtain ⟨l, hl, rfl⟩ := hmemk k hk
    exact hne l hl
  have hrt : roundTrip s1 =
      (sortKeys s1).map fun k => (k, roundTripRow (getRow s1 k)) :=
    roundTrip_map_of_id_cells s1 hcell hner
  have hlookt : ∀ l ∈ batch, storeLookup (roundTrip s1) l.id =
      some (roundTripRow (addedRow l now1)) := by
    intro l hl
    rw [hrt, storeLookup_map_keys (fun k => roundTripRow (getRow s1 k))
      (sortKeys s1) l.id
      (hperm.mem_iff.mpr (List.mem_map_of_mem Listing.id hl)),
      hget1 l hl]
  have hsome : ∀ l ∈ batch, (storeLookup (roundTrip s1) l.id).isSome := by
    intro l hl
    rw [hlookt l hl]
    rfl
  obtain ⟨hadded, hsum, hkeys2⟩ := mergeFold_all_existing now2 batch
    (((0, 0, 0) : Nat × Nat × Nat), roundTrip s1) hsome
  have hres1eq : (mergeListings (roundTrip s1) batch now2 false).1 =
      (batch.foldl (mergeStep now2)
        (((0, 0, 0) : Nat × Nat × Nat), roundTrip s1)).1 := by
    simp [mergeListings]
  have hres2eq : (mergeListings (roundTrip s1) batch now2 false).2 =
      (batch.foldl (mergeStep now2)
        (((0, 0, 0) : Nat × Nat × Nat), roundTrip s1)).2 := by
    simp [mergeListings]
  refine ⟨hc1, ?_, ?_, ?_⟩
  · rw [hres1eq]
    exact hadded
  · rw [hres1eq]
    rw [hsum]
    simp
  · rw [hres2eq]
    have hkeyst : (roundTrip s1).map Prod.fst = sortKeys s1 := by
      rw [hrt, List.map_map]
      exact List.map_id _
    have hsorted1 : List.Sorted strLeProp (sortKeys s1) :=
      List.sorted_insertionSort strLeProp (s1.map Prod.fst)
    have hsk2 : sortKeys (batch.foldl (mergeStep now2)
        (((0, 0, 0) : Nat × Nat × Nat), roundTrip s1)).2 = sortKeys s1 := by
      rw [sortKeys, hkeys2, hkeyst]
      exact List.Sorted.insertionSort_eq hsorted1
    rw [writeAllCols, writeAllCols, hsk2]
    refine congrArg (List.cons _) ?_
    refine List.map_congr_left ?_
    intro k hk
    obtain ⟨l, hl, rfl⟩ := hmemk k hk
    have hrow2 : getRow (batch.foldl (mergeStep now2)
        (((0, 0, 0) : Nat × Nat × Nat), roundTrip s1)).2 l.id =
        mergeRow (roundTripRow (addedRow l now1)) (toDict l) now2 := by
      rw [getRow, mergeFold_lookup_merged now2
        (fun l' => roundTripRow (addedRow l' now1)) batch
        (((0, 0, 0) : Nat × Nat × Nat), roundTrip s1) hnd hlookt l hl]
      rfl
    rw [hrow2, hget1 l hl]
    refine List.map_congr_left ?_
    intro c hc
    obtain ⟨hc1', hc2'⟩ := List.mem_filter.mp hc
    exact cellStr_mergeRow_roundTrip l now1 now2 c
      (of_decide_eq_true hc2') hc1'

/-- Witness for C2 (amended), at a concrete one-listing batch. -/
theorem merge_repeat_behavior_witness :
    (mergeListings (roundTrip (mergeListings [] [c1Upd] "T1" false).2)
      [c1Upd] "T2" false).1.1 = 0 :=
  (merge_repeat_behavior [c1Upd] "T1" "T2" (by decide) (by decide)).2.1

end KvPet
